import Mathlib

/-!
Verification development for the `python-code-refactor` repository.

The repository analyses Python source text with the `ast` module
(`src/utils/code_analyzer.py`), cleans it (`src/utils/code_cleaner.py`),
refactors it (`src/utils/code_refactor.py`) and renders diffs
(`src/utils/diff_generator.py`).  We shallowly embed the code here:

* The Python AST is embedded as the inductive types `Ctx`, `PyConst`,
  `Expr`, `Stmt` below.  Nodes carry the fields the repository reads:
  line numbers (`lineno`) and, where the code calls
  `ast.get_source_segment(code, node)`, the rendered source segment
  (`seg : Option String`, `none` modelling a `None` result).  The tree
  builder itself (`ast.parse`) is an external collaborator of the
  repository (spec §2); all top-level operations take it as an explicit
  function argument `parse : String → Except PySyntaxError (List Stmt)`,
  a successful parse being `.ok tree` and a `SyntaxError` being
  `.error e`.
* `ast.walk` is a breadth-first traversal using a FIFO queue; `walk`
  below implements exactly that (fuelled by `sizeOf`, which dominates
  the node count, so the fuel never runs out).
* Python `dict`s (insertion ordered, updates keep the position of a
  key) are embedded as association lists with the `upsert` operation;
  Python `set`s are embedded as lists, only membership being observed.
* Machine-level caveats: strings are sequences of characters (as in
  Python 3); `re`'s `\w`/`\b`/`\s` classes are modelled at ASCII
  granularity (`isWordChar`, `pyIsSpace`).
-/

/-- ASCII word characters, modelling the regex class `\w` used by
`re.sub(r'\b…\b', …)` in `code_refactor.py`. -/
def isWordChar (c : Char) : Bool :=
  c.isAlpha || c.isDigit || c == '_'

/-- Whitespace characters, modelling the regex class `\s` and
`str.strip()`'s default set (ASCII part). -/
def pyIsSpace (c : Char) : Bool :=
  c == ' ' || c == '\t' || c == '\n' || c == '\r' || c == '\x0b' || c == '\x0c'

/-- Python `str.strip()` on a character list. -/
def pyStripL (s : List Char) : List Char :=
  ((s.dropWhile pyIsSpace).reverse.dropWhile pyIsSpace).reverse

/-- Python `str.strip()`. -/
def pyStrip (s : String) : String :=
  String.mk (pyStripL s.data)

/-- Scanning loop for `collapseWs`: `inRun` records whether the
previous character was whitespace (in which case further whitespace is
dropped rather than emitting another space). -/
def collapseWsGo (inRun : Bool) : List Char → List Char
  | [] => []
  | c :: rest =>
    if pyIsSpace c then
      if inRun then collapseWsGo true rest else ' ' :: collapseWsGo true rest
    else c :: collapseWsGo false rest

/-- `re.sub(r'\s+', ' ', s)`: collapse every maximal whitespace run to a
single space. -/
def collapseWs (s : List Char) : List Char :=
  collapseWsGo false s

/-- Python `s.startswith(pre)`. -/
def pyStartsWith (s pre : String) : Bool :=
  pre.data.isPrefixOf s.data

/-- Association-list update with Python `dict` semantics: an existing
key keeps its position and gets the new value; a new key is appended. -/
def upsert {α : Type} (k : String) (v : α) : List (String × α) → List (String × α)
  | [] => [(k, v)]
  | (k', v') :: rest => if k' = k then (k, v) :: rest else (k', v') :: upsert k v rest

/-- Association-list lookup (Python `d[k]` / `k in d`). -/
def lookupA {α : Type} : List (String × α) → String → Option α
  | [], _ => none
  | (k', v) :: rest, k => if k' = k then some v else lookupA rest k

/-- The `enumerate(…)` pairing used by the analyzer and cleaner. -/
def enumerate {α : Type} (l : List α) : List (Nat × α) := l.enum

/-- Scanning loop for `pySplitChar` (`acc` is the reversed current
piece). -/
def pySplitCharGo (sep : Char) : List Char → List Char → List String
  | [], acc => [String.mk acc.reverse]
  | c :: rest, acc =>
      if c = sep then String.mk acc.reverse :: pySplitCharGo sep rest []
      else pySplitCharGo sep rest (c :: acc)

/-- Python `str.split(sep)` for a single-character separator (the only
form the repository uses: `split('\n')` and `split('.')`);
`"".split(sep)` is `[""]`. -/
def pySplitChar (sep : Char) (s : String) : List String :=
  pySplitCharGo sep s.data []

/-- Python `str.split('\n')`. -/
def pySplitNl (s : String) : List String :=
  pySplitChar '\n' s

/-- Joining loop for `pyJoin`. -/
def pyJoinGo (sep : List Char) : List (List Char) → List Char
  | [] => []
  | [x] => x
  | x :: y :: rest => x ++ sep ++ pyJoinGo sep (y :: rest)

/-- Python `sep.join(ls)`. -/
def pyJoin (sep : String) (ls : List String) : String :=
  String.mk (pyJoinGo sep.data (ls.map String.data))

/- ### The embedded Python AST -/

/-- Expression contexts (`ast.Load` / `ast.Store` / `ast.Del`). -/
inductive Ctx where
  | load
  | store
  | del
deriving Repr, DecidableEq

/-- Constant payloads of `ast.Constant` (floats are not needed by any
claim and are left out; note `bool` is an `int` subclass in Python). -/
inductive PyConst where
  | intVal (n : Int)
  | strVal (s : String)
  | boolVal (b : Bool)
  | noneVal
deriving Repr, DecidableEq

/-- Embedded Python expressions.  Each constructor ends with the node's
`lineno` and the `ast.get_source_segment` result for the node. -/
inductive Expr where
  | name (id : String) (ctx : Ctx) (lineno : Nat) (seg : Option String)
  | attribute (value : Expr) (attr : String) (ctx : Ctx) (lineno : Nat) (seg : Option String)
  | constant (value : PyConst) (lineno : Nat) (seg : Option String)
  | boolOp (values : List Expr) (lineno : Nat) (seg : Option String)
  | binOp (left : Expr) (right : Expr) (lineno : Nat) (seg : Option String)
  | call (func : Expr) (args : List Expr) (lineno : Nat) (seg : Option String)
  | listLit (elts : List Expr) (lineno : Nat) (seg : Option String)
  | dictLit (lineno : Nat) (seg : Option String)
deriving Repr

/-- Embedded Python statements.  `importStmt`/`importFrom` names are
`(name, asname)` pairs mirroring `ast.alias`; `functionDef` covers both
`ast.FunctionDef` and `ast.AsyncFunctionDef` via `isAsync`; `argCount`
is `len(node.args.args)`. -/
inductive Stmt where
  | importStmt (names : List (String × Option String)) (lineno : Nat)
  | importFrom (module : Option String) (names : List (String × Option String)) (lineno : Nat)
  | assign (targets : List Expr) (value : Expr) (lineno : Nat) (seg : Option String)
  | augAssign (target : Expr) (value : Expr) (lineno : Nat) (seg : Option String)
  | exprStmt (value : Expr) (lineno : Nat) (seg : Option String)
  | forStmt (target : Expr) (iter : Expr) (body : List Stmt) (orelse : List Stmt) (lineno : Nat)
  | whileStmt (test : Expr) (body : List Stmt) (orelse : List Stmt) (lineno : Nat)
  | ifStmt (test : Expr) (body : List Stmt) (orelse : List Stmt) (lineno : Nat)
  | functionDef (name : String) (argCount : Nat) (body : List Stmt) (lineno : Nat)
      (seg : Option String) (isAsync : Bool)
  | classDef (name : String) (body : List Stmt) (lineno : Nat)
  | globalStmt (names : List String) (lineno : Nat)
  | returnStmt (value : Option Expr) (lineno : Nat)
  | passStmt (lineno : Nat)
deriving Repr

/-- A node of the walked tree: the module root, a statement or an
expression (operator/context/alias helper nodes, which no detector
inspects, are not represented). -/
inductive Node where
  | mod (body : List Stmt)
  | stmt (s : Stmt)
  | expr (e : Expr)
deriving Repr

mutual
/-- Structural equality of embedded expressions (models CPython's `is`
identity check of `_find_global_variables`, which coincides with
structural equality on trees without duplicated equal subtrees). -/
def beqExpr : Expr → Expr → Bool
  | .name a b c d, .name a' b' c' d' => a == a' && b == b' && c == c' && d == d'
  | .attribute v a c l s, .attribute v' a' c' l' s' =>
      beqExpr v v' && a == a' && c == c' && l == l' && s == s'
  | .constant v l s, .constant v' l' s' => v == v' && l == l' && s == s'
  | .boolOp vs l s, .boolOp vs' l' s' => beqExprList vs vs' && l == l' && s == s'
  | .binOp a b l s, .binOp a' b' l' s' =>
      beqExpr a a' && beqExpr b b' && l == l' && s == s'
  | .call f args l s, .call f' args' l' s' =>
      beqExpr f f' && beqExprList args args' && l == l' && s == s'
  | .listLit es l s, .listLit es' l' s' => beqExprList es es' && l == l' && s == s'
  | .dictLit l s, .dictLit l' s' => l == l' && s == s'
  | _, _ => false

/-- Structural equality of expression lists. -/
def beqExprList : List Expr → List Expr → Bool
  | [], [] => true
  | e :: es, e' :: es' => beqExpr e e' && beqExprList es es'
  | _, _ => false
end

mutual
/-- Structural equality of embedded statements. -/
def beqStmt : Stmt → Stmt → Bool
  | .importStmt ns l, .importStmt ns' l' => ns == ns' && l == l'
  | .importFrom m ns l, .importFrom m' ns' l' => m == m' && ns == ns' && l == l'
  | .assign ts v l s, .assign ts' v' l' s' =>
      beqExprList ts ts' && beqExpr v v' && l == l' && s == s'
  | .augAssign t v l s, .augAssign t' v' l' s' =>
      beqExpr t t' && beqExpr v v' && l == l' && s == s'
  | .exprStmt v l s, .exprStmt v' l' s' => beqExpr v v' && l == l' && s == s'
  | .forStmt t i b o l, .forStmt t' i' b' o' l' =>
      beqExpr t t' && beqExpr i i' && beqStmtList b b' && beqStmtList o o' && l == l'
  | .whileStmt c b o l, .whileStmt c' b' o' l' =>
      beqExpr c c' && beqStmtList b b' && beqStmtList o o' && l == l'
  | .ifStmt c b o l, .ifStmt c' b' o' l' =>
      beqExpr c c' && beqStmtList b b' && beqStmtList o o' && l == l'
  | .functionDef n a b l s y, .functionDef n' a' b' l' s' y' =>
      n == n' && a == a' && beqStmtList b b' && l == l' && s == s' && y == y'
  | .classDef n b l, .classDef n' b' l' => n == n' && beqStmtList b b' && l == l'
  | .globalStmt ns l, .globalStmt ns' l' => ns == ns' && l == l'
  | .returnStmt v l, .returnStmt v' l' =>
      (match v, v' with
       | some e, some e' => beqExpr e e'
       | none, none => true
       | _, _ => false) && l == l'
  | .passStmt l, .passStmt l' => l == l'
  | _, _ => false

/-- Structural equality of statement lists. -/
def beqStmtList : List Stmt → List Stmt → Bool
  | [], [] => true
  | s :: ss, s' :: ss' => beqStmt s s' && beqStmtList ss ss'
  | _, _ => false
end

/-- Structural equality of walked nodes. -/
def beqNode : Node → Node → Bool
  | .mod b, .mod b' => beqStmtList b b'
  | .stmt s, .stmt s' => beqStmt s s'
  | .expr e, .expr e' => beqExpr e e'
  | _, _ => false

mutual
/-- Number of embedded nodes of an expression subtree. -/
def sizeE : Expr → Nat
  | .name _ _ _ _ => 1
  | .attribute v _ _ _ _ => 1 + sizeE v
  | .constant _ _ _ => 1
  | .boolOp vs _ _ => 1 + sizeEL vs
  | .binOp a b _ _ => 1 + sizeE a + sizeE b
  | .call f args _ _ => 1 + sizeE f + sizeEL args
  | .listLit es _ _ => 1 + sizeEL es
  | .dictLit _ _ => 1

/-- Total node count of a list of expressions. -/
def sizeEL : List Expr → Nat
  | [] => 0
  | e :: es => sizeE e + sizeEL es
end

mutual
/-- Number of embedded nodes of a statement subtree. -/
def sizeS : Stmt → Nat
  | .importStmt _ _ => 1
  | .importFrom _ _ _ => 1
  | .assign ts v _ _ => 1 + sizeEL ts + sizeE v
  | .augAssign t v _ _ => 1 + sizeE t + sizeE v
  | .exprStmt v _ _ => 1 + sizeE v
  | .forStmt t i b o _ => 1 + sizeE t + sizeE i + sizeSL b + sizeSL o
  | .whileStmt c b o _ => 1 + sizeE c + sizeSL b + sizeSL o
  | .ifStmt c b o _ => 1 + sizeE c + sizeSL b + sizeSL o
  | .functionDef _ _ b _ _ _ => 1 + sizeSL b
  | .classDef _ b _ => 1 + sizeSL b
  | .globalStmt _ _ => 1
  | .returnStmt v _ => 1 + (match v with | some e => sizeE e | none => 0)
  | .passStmt _ => 1

/-- Total node count of a list of statements. -/
def sizeSL : List Stmt → Nat
  | [] => 0
  | s :: ss => sizeS s + sizeSL ss
end

/-- Number of embedded nodes of a walked subtree. -/
def sizeN : Node → Nat
  | .mod b => 1 + sizeSL b
  | .stmt s => sizeS s
  | .expr e => sizeE e

/-- Child expressions of an expression, in `ast` field order. -/
def exprChildren : Expr → List Expr
  | .name _ _ _ _ => []
  | .attribute v _ _ _ _ => [v]
  | .constant _ _ _ => []
  | .boolOp vs _ _ => vs
  | .binOp a b _ _ => [a, b]
  | .call f args _ _ => f :: args
  | .listLit es _ _ => es
  | .dictLit _ _ => []

/-- Child nodes of a statement, in `ast` field order
(`ast.iter_child_nodes`). -/
def stmtChildren : Stmt → List Node
  | .importStmt _ _ => []
  | .importFrom _ _ _ => []
  | .assign tgts v _ _ => tgts.map .expr ++ [.expr v]
  | .augAssign t v _ _ => [.expr t, .expr v]
  | .exprStmt v _ _ => [.expr v]
  | .forStmt tg it body orelse _ =>
      [.expr tg, .expr it] ++ body.map .stmt ++ orelse.map .stmt
  | .whileStmt c body orelse _ => [.expr c] ++ body.map .stmt ++ orelse.map .stmt
  | .ifStmt c body orelse _ => [.expr c] ++ body.map .stmt ++ orelse.map .stmt
  | .functionDef _ _ body _ _ _ => body.map .stmt
  | .classDef _ body _ => body.map .stmt
  | .globalStmt _ _ => []
  | .returnStmt v _ => (v.map (fun e => [Node.expr e])).getD []
  | .passStmt _ => []

/-- `ast.iter_child_nodes` on any node. -/
def children : Node → List Node
  | .mod body => body.map .stmt
  | .stmt s => stmtChildren s
  | .expr e => (exprChildren e).map .expr

/-- Breadth-first queue processing, exactly `ast.walk`'s
`deque.popleft` / `extend(iter_child_nodes)` loop.  The fuel bounds the
number of popped nodes; callers pass a fuel that dominates the total
node count, so the traversal always completes. -/
def walkAux : Nat → List Node → List Node
  | 0, _ => []
  | _ + 1, [] => []
  | fuel + 1, n :: q => n :: walkAux fuel (q ++ children n)

/-- `ast.walk(node)` for an arbitrary start node.  `sizeN n` is exactly
the number of nodes of the subtree, hence sufficient fuel (`+ 1` for
slack). -/
def walkFrom (n : Node) : List Node :=
  walkAux (sizeN n + 1) [n]

/-- `ast.walk(tree)` on the parsed module with body `t`. -/
def walk (t : List Stmt) : List Node :=
  walkAux (sizeSL t + 2) [Node.mod t]

/- ### `code_analyzer.py` -/

/-- The `SyntaxError` data surfaced by `analyze_code` (`e.lineno`,
`e.msg`). -/
structure PySyntaxError where
  lineno : Nat
  msg : String
deriving Repr, DecidableEq

/-- `_get_imports`: dotted import targets collected over the walk. -/
def getImportsL : List Node → List String
  | [] => []
  | .stmt (.importStmt names _) :: rest =>
      names.map (fun a => a.1) ++ getImportsL rest
  | .stmt (.importFrom m names _) :: rest =>
      names.map (fun a =>
        if a.1 = "*" then (m.getD "") ++ ".*" else (m.getD "") ++ "." ++ a.1)
        ++ getImportsL rest
  | _ :: rest => getImportsL rest

/-- The contribution of one walked node to `_get_used_names`: a `Name`
in load context contributes its id; an `Attribute` in load context
whose value is a `Name` contributes `"base.attr"` and `"base"`. -/
def usedContrib : Node → List String
  | .expr (.name id .load _ _) => [id]
  | .expr (.attribute (.name bid _ _ _) attr .load _ _) => [bid ++ "." ++ attr, bid]
  | _ => []

/-- `_get_used_names`.  (The Python code builds a `set`; only
membership is ever observed, so a list embeds it faithfully.) -/
def usedNamesL : List Node → List String
  | [] => []
  | n :: rest => usedContrib n ++ usedNamesL rest

/-- The per-import usedness test of `_find_unused_imports`. -/
def importUsed (used : List String) (imp : String) : Bool :=
  let parts := pySplitChar '.' imp
  used.any (fun u =>
    imp == u || pyStartsWith imp (u ++ ".") ||
      parts.any (fun p => pyStartsWith u (p ++ ".")))

/-- `_find_unused_imports`. -/
def findUnusedImports (imports used : List String) : List String :=
  imports.filterMap (fun imp =>
    if importUsed used imp then none
    else some ("Import '" ++ imp ++ "' is not used"))

/-- Target-name collection step of `_get_variables` for one `Assign`. -/
def assignTargetVars : List Expr → Nat → List (String × Nat) → List (String × Nat)
  | [], _, acc => acc
  | .name id _ _ _ :: ts, ln, acc => assignTargetVars ts ln (upsert id ln acc)
  | _ :: ts, ln, acc => assignTargetVars ts ln acc

/-- `_get_variables`: name → last-seen definition line, insertion
ordered (a Python `dict`). -/
def getVariablesL : List Node → List (String × Nat) → List (String × Nat)
  | [], acc => acc
  | .stmt (.assign tgts _ ln _) :: rest, acc =>
      getVariablesL rest (assignTargetVars tgts ln acc)
  | _ :: rest, acc => getVariablesL rest acc

/-- `dir(builtins)` as read by `_find_unused_variables` (the names a
CPython interpreter exposes; only membership of assigned variable names
is observed). -/
def pyBuiltins : List String :=
  ["abs", "aiter", "all", "anext", "any", "ascii", "bin", "bool", "breakpoint",
   "bytearray", "bytes", "callable", "chr", "classmethod", "compile", "complex",
   "copyright", "credits", "delattr", "dict", "dir", "divmod", "enumerate",
   "eval", "exec", "exit", "filter", "float", "format", "frozenset", "getattr",
   "globals", "hasattr", "hash", "help", "hex", "id", "input", "int",
   "isinstance", "issubclass", "iter", "len", "license", "list", "locals",
   "map", "max", "memoryview", "min", "next", "object", "oct", "open", "ord",
   "pow", "print", "property", "quit", "range", "repr", "reversed", "round",
   "set", "setattr", "slice", "sorted", "staticmethod", "str", "sum", "super",
   "tuple", "type", "vars", "zip", "True", "False", "None", "NotImplemented",
   "Ellipsis", "Exception", "BaseException", "ValueError", "TypeError",
   "KeyError", "IndexError", "AttributeError", "RuntimeError", "StopIteration",
   "ArithmeticError", "ZeroDivisionError", "OSError", "IOError", "NameError"]

/-- `_find_unused_variables`. -/
def findUnusedVariables (vars : List (String × Nat)) (used : List String) : List String :=
  vars.filterMap (fun p =>
    if p.1 ∉ used ∧ p.1 ∉ pyBuiltins ∧ ¬ pyStartsWith p.1 "_" then
      some ("Variable '" ++ p.1 ++ "' declared on line " ++ toString p.2
        ++ " is never used")
    else none)

/-- Is the statement a loop (`ast.For` / `ast.While`)? -/
def isLoopStmt : Stmt → Bool
  | .forStmt _ _ _ _ _ => true
  | .whileStmt _ _ _ _ => true
  | _ => false

mutual
/-- `_check_nested_loops(node, 1)`: the maximum length of a chain of
loops each a *direct* child of the previous one, starting at `s`. -/
def nestDepth : Stmt → Nat
  | .forStmt _ _ b o _ => Nat.max 1 (Nat.max (nestsIn b) (nestsIn o))
  | .whileStmt _ b o _ => Nat.max 1 (Nat.max (nestsIn b) (nestsIn o))
  | _ => 1

/-- Maximum over the loop statements of a block of `1 + nestDepth`. -/
def nestsIn : List Stmt → Nat
  | [] => 0
  | s :: rest =>
      Nat.max (if isLoopStmt s then 1 + nestDepth s else 0) (nestsIn rest)
end

/-- The contribution of one walked node to the `complex_expr` list of
`_find_complex_code`. -/
def complexExprAt : Node → List String
  | .expr (.boolOp vs ln _) =>
      if vs.length > 3 then
        ["Complex boolean expression with " ++ toString vs.length
          ++ " conditions at line " ++ toString ln]
      else []
  | _ => []

/-- The loop-depth information `_find_complex_code` computes at a node:
`some (depth, lineno)` for loop statements, `none` otherwise. -/
def loopInfo : Node → Option (Nat × Nat)
  | .stmt s =>
      match s with
      | .forStmt _ _ _ _ ln => some (nestDepth s, ln)
      | .whileStmt _ _ _ ln => some (nestDepth s, ln)
      | _ => none
  | _ => none

/-- The contribution of one walked node to the `nested_loops` list. -/
def nestedLoopAt (n : Node) : List String :=
  match loopInfo n with
  | some (d, ln) =>
      if d > 1 then
        ["Nested loop with " ++ toString d ++ " levels at line " ++ toString ln]
      else []
  | none => []

/-- `_find_complex_code`: one walk appending to the two lists. -/
def findComplexCode : List Node → List String × List String
  | [] => ([], [])
  | n :: rest =>
      let r := findComplexCode rest
      (complexExprAt n ++ r.1, nestedLoopAt n ++ r.2)

/-- `_find_long_functions`. -/
def longFunctionsL : List Node → List String
  | [] => []
  | .stmt (.functionDef name _ _ ln seg _) :: rest =>
      (match seg with
       | some s =>
           let n := (pySplitNl s).length
           if n > 30 then
             ["Function '" ++ name ++ "' has " ++ toString n
               ++ " lines (over 30) at line " ++ toString ln]
           else []
       | none => []) ++ longFunctionsL rest
  | _ :: rest => longFunctionsL rest

/-- `_find_poor_variable_names` (note: unlike the refactor module, the
analyzer's non-descriptive vocabulary has no `data`). -/
def analyzerPoorNames : List (String × Nat) → List String
  | [] => []
  | (var, line) :: rest =>
      if pyStartsWith var "_" || var ∈ ["i", "j", "k", "x", "y", "z"] then
        analyzerPoorNames rest
      else
        (if var.length = 1 ∧ var ∉ ["i", "j", "k", "x", "y", "z"] then
          ["Variable '" ++ var ++ "' at line " ++ toString line
            ++ " has a single-character name"]
         else []) ++
        (if var ∈ ["temp", "tmp", "var", "foo", "bar"] then
          ["Variable '" ++ var ++ "' at line " ++ toString line
            ++ " has a non-descriptive name"]
         else []) ++ analyzerPoorNames rest

/-- The allow-list of `_find_magic_numbers`. -/
def magicAllowed : List Int := [0, 1, -1, 2, 10, 100]

/-- The numeric value of a constant, if the constant is numeric in the
sense of `isinstance(value, (int, float))` (`bool` is an `int`
subclass, `True == 1` and `False == 0`). -/
def constNum : PyConst → Option Int
  | .intVal n => some n
  | .boolVal b => some (if b then 1 else 0)
  | _ => none

/-- The numeric constant at a walked node, if any. -/
def magicInfo : Node → Option (Int × Nat)
  | .expr (.constant c ln _) => (constNum c).map (fun v => (v, ln))
  | _ => none

/-- The contribution of one walked node to the magic-number findings. -/
def magicAt (n : Node) : List String :=
  match magicInfo n with
  | some (v, ln) =>
      if v ∈ magicAllowed then []
      else ["Magic number " ++ toString v ++ " at line " ++ toString ln]
  | none => []

/-- `_find_magic_numbers`. -/
def magicNumbersL : List Node → List String
  | [] => []
  | n :: rest => magicAt n ++ magicNumbersL rest

/-- The `(stripped segment, lineno)` harvest of `_find_duplicated_code`
(statements whose stripped source exceeds 20 characters). -/
def dupCollectL : List Node → List (String × Nat)
  | [] => []
  | n :: rest =>
      (match n with
       | .stmt (.exprStmt _ ln seg) => dupCandidate seg ln
       | .stmt (.assign _ _ ln seg) => dupCandidate seg ln
       | .stmt (.augAssign _ _ ln seg) => dupCandidate seg ln
       | _ => []) ++ dupCollectL rest
where
  /-- One candidate if the source segment is present and, stripped,
  longer than 20 characters. -/
  dupCandidate (seg : Option String) (ln : Nat) : List (String × Nat) :=
    match seg with
    | some s =>
        let st := pyStrip s
        if st.length > 20 then [(st, ln)] else []
    | none => []

/-- Whitespace normalization of `_find_duplicated_code`:
`re.sub(r'\s+', ' ', stmt).strip()`. -/
def normalizeStmt (s : String) : String :=
  pyStrip (String.mk (collapseWs s.data))

/-- The duplicated-code message. -/
def dupMsg (first line : Nat) : String :=
  "Similar code at lines " ++ toString first ++ " and " ++ toString line

/-- The `seen`-dictionary scan of `_find_duplicated_code`. -/
def dupScan (seen : List (String × Nat)) : List (String × Nat) → List String
  | [] => []
  | (stmt, line) :: rest =>
      let n := normalizeStmt stmt
      match lookupA seen n with
      | some l =>
          if l ≠ line then dupMsg l line :: dupScan seen rest
          else dupScan (upsert n line seen) rest
      | none => dupScan (upsert n line seen) rest

/-- `_find_duplicated_code`. -/
def findDuplicatedCode (l : List Node) : List String :=
  dupScan [] (dupCollectL l)

/-- `ast.get_docstring(node)` is truthy: the first body statement is a
non-empty string constant expression. -/
def hasDocstring : List Stmt → Bool
  | .exprStmt (.constant (.strVal s) _ _) _ _ :: _ => s ≠ ""
  | _ => false

/-- `_find_missing_docstrings`. -/
def missingDocsL : List Node → List String
  | [] => []
  | .stmt (.functionDef name _ body ln _ _) :: rest =>
      (if ¬ hasDocstring body ∧ ¬ pyStartsWith name "_" then
        ["Function '" ++ name ++ "' at line " ++ toString ln
          ++ " is missing a docstring"]
       else []) ++ missingDocsL rest
  | .stmt (.classDef name body ln) :: rest =>
      (if ¬ hasDocstring body ∧ ¬ pyStartsWith name "_" then
        ["Class '" ++ name ++ "' at line " ++ toString ln
          ++ " is missing a docstring"]
       else []) ++ missingDocsL rest
  | _ :: rest => missingDocsL rest

/-- `_find_excessive_line_length`. -/
def excessiveLinesOf (code : String) : List String :=
  (enumerate (pySplitNl code)).filterMap (fun p =>
    if p.2.length > 100 then
      some ("Line " ++ toString (p.1 + 1) ++ " is " ++ toString p.2.length
        ++ " characters long (exceeds 100 characters)")
    else none)

/-- `_find_too_many_arguments`. -/
def tooManyArgsL : List Node → List String
  | [] => []
  | .stmt (.functionDef name argc _ ln _ _) :: rest =>
      (if argc > 5 then
        ["Function '" ++ name ++ "' at line " ++ toString ln ++ " has "
          ++ toString argc ++ " parameters (exceeds 5)"]
       else []) ++ tooManyArgsL rest
  | _ :: rest => tooManyArgsL rest

/-- Is the node a function or class definition? -/
def isDefOrClass : Node → Bool
  | .stmt (.functionDef _ _ _ _ _ _) => true
  | .stmt (.classDef _ _ _) => true
  | _ => false

/-- Python `str.upper()` (ASCII). -/
def pyUpper (s : String) : String :=
  String.mk (s.data.map Char.toUpper)

/-- The `Assign`-is-inside-a-definition test of `_find_global_variables`
(the Python code compares nodes with `is`; on trees without duplicated
equal subtrees this coincides with the structural equality used here). -/
def isUnderDef (l : List Node) (n : Node) : Bool :=
  l.any (fun p => isDefOrClass p && (walkFrom p).any (fun m => beqNode m n))

/-- First pass of `_find_global_variables`: the module-level variable
dictionary (name → lineno, insertion ordered).  `l` is the full walk of
the tree, used for the containment check. -/
def globalModVars (l : List Node) : List Node → List (String × Nat) → List (String × Nat)
  | [], acc => acc
  | n :: rest, acc =>
      match n with
      | .stmt (.assign (.name id _ _ _ :: _) _ ln _) =>
          if ¬ isUnderDef l n ∧ ¬ pyStartsWith id "_" ∧ pyUpper id ≠ id then
            globalModVars l rest (upsert id ln acc)
          else globalModVars l rest acc
      | _ => globalModVars l rest acc

/-- The `global`-statement findings collected inside one function. -/
def globalsInFunction (fname : String) (fnNode : Node) : List String :=
  (walkFrom fnNode).foldr
    (fun sub acc =>
      match sub with
      | .stmt (.globalStmt names gln) =>
          names.map (fun nm =>
            "Global variable '" ++ nm ++ "' used in function '" ++ fname
              ++ "' at line " ++ toString gln) ++ acc
      | _ => acc) []

/-- Second pass of `_find_global_variables`: `global` statements inside
function bodies. -/
def globalStmtMsgs : List Node → List String
  | [] => []
  | n :: rest =>
      (match n with
       | .stmt (.functionDef fname _ _ _ _ _) => globalsInFunction fname n
       | _ => []) ++ globalStmtMsgs rest

/-- `_find_global_variables`. -/
def findGlobalVariables (t : List Stmt) : List String :=
  let l := walk t
  globalStmtMsgs l ++
    (globalModVars l l []).map (fun p =>
      "Module-level variable '" ++ p.1 ++ "' declared at line " ++ toString p.2)

/-- `analyze_code`.  The tree builder `ast.parse` is passed in as the
external collaborator `parse`; `.error e` embeds a raised
`SyntaxError`.  (The source's final `except Exception` branch is dead
in the embedding: every detector is a total function, matching the fact
that no detector raises on a tree produced by the real parser.) -/
def analyze_code (parse : String → Except PySyntaxError (List Stmt))
    (code : String) : List (String × List String) :=
  match parse code with
  | .error e =>
      [("Syntax Errors", ["Line " ++ toString e.lineno ++ ": " ++ e.msg])]
  | .ok t =>
      let l := walk t
      let vars := getVariablesL l []
      let used := usedNamesL l
      [("Unused Imports", findUnusedImports (getImportsL l) used),
       ("Unused Variables", findUnusedVariables vars used),
       ("Complex Expressions", (findComplexCode l).1),
       ("Nested Loops", (findComplexCode l).2),
       ("Long Functions", longFunctionsL l),
       ("Code Duplication", findDuplicatedCode l),
       ("Poorly Named Variables", analyzerPoorNames vars),
       ("Magic Numbers", magicNumbersL l),
       ("Missing Docstrings", missingDocsL l),
       ("Excessive Line Length", excessiveLinesOf code),
       ("Too Many Arguments", tooManyArgsL l),
       ("Global Variables", findGlobalVariables t)]

/-- Category lookup in an analysis result (Python `result[cat]`). -/
def lookupCat (res : List (String × List String)) (cat : String) : Option (List String) :=
  (res.find? (fun p => p.1 == cat)).map (fun p => p.2)

/- ### `code_cleaner.py`

The external formatters are black-box collaborators (spec §1: "the spec
treats external formatters … as black-box collaborators").  Each is
passed in as a function `String → Except Unit String`, `.error ()`
embedding a raised exception. -/

/-- `sort_imports`: `isort.code`, absorbing any exception. -/
def sort_imports (isortCode : String → Except Unit String) (code : String) : String :=
  match isortCode code with
  | .ok r => r
  | .error _ => code

/-- `format_with_black`: `black.format_str`, absorbing any exception. -/
def format_with_black (blackFormat : String → Except Unit String) (code : String) : String :=
  match blackFormat code with
  | .ok r => r
  | .error _ => code

/-- `format_with_autopep8`: `autopep8.fix_code`, absorbing any
exception. -/
def format_with_autopep8 (autopep8Fix : String → Except Unit String) (code : String) : String :=
  match autopep8Fix code with
  | .ok r => r
  | .error _ => code

/-- The import records of `remove_unused_imports`:
`(import_name, asname, node.lineno)` triples. -/
def cleanerImports : List Node → List (String × Option String × Nat)
  | [] => []
  | .stmt (.importStmt names ln) :: rest =>
      names.map (fun a => (a.1, a.2, ln)) ++ cleanerImports rest
  | .stmt (.importFrom m names ln) :: rest =>
      (names.filterMap (fun a =>
        if a.1 = "*" then none
        else some ((m.getD "") ++ "." ++ a.1, a.2, ln))) ++ cleanerImports rest
  | _ :: rest => cleanerImports rest

/-- The used-name set of `remove_unused_imports` (bare load names and
attribute bases only — unlike the analyzer it records no composite
`base.attr` strings). -/
def cleanerUsedNames : List Node → List String
  | [] => []
  | .expr (.name id .load _ _) :: rest => id :: cleanerUsedNames rest
  | .expr (.attribute (.name bid _ _ _) _ .load _ _) :: rest =>
      bid :: cleanerUsedNames rest
  | _ :: rest => cleanerUsedNames rest

/-- The name checked for usedness:
`alias if alias else import_name.split('.')[-1]`. -/
def importCheckName (importName : String) (asname : Option String) : String :=
  match asname with
  | some a => a
  | none => (pySplitChar '.' importName).getLast?.getD ""

/-- `remove_unused_imports` (the whole body is inside `try/except`, so
a parse failure returns the input unchanged). -/
def remove_unused_imports (parse : String → Except PySyntaxError (List Stmt))
    (code : String) : String :=
  match parse code with
  | .error _ => code
  | .ok t =>
      let l := walk t
      let used := cleanerUsedNames l
      let linesToRemove := (cleanerImports l).filterMap (fun r =>
        if importCheckName r.1 r.2.1 ∈ used then none else some r.2.2)
      if linesToRemove ≠ [] then
        pyJoin "\n"
          ((enumerate (pySplitNl code)).filterMap (fun p =>
            if p.1 + 1 ∈ linesToRemove then none else some p.2))
      else code

/-- `^\s*[a-zA-Z_][a-zA-Z0-9_]*\s*=` — the "looks like a simple
assignment" regex of `remove_unused_variables` (`re.match`, anchored at
the line start). -/
def assignLineMatch (line : String) : Bool :=
  match line.data.dropWhile pyIsSpace with
  | c :: cs =>
      if c.isAlpha || c = '_' then
        match (cs.dropWhile (fun d => d.isAlphanum || d = '_')).dropWhile pyIsSpace with
        | '=' :: _ => true
        | _ => false
      else false
  | [] => false

/-- The bare load-name usages of `remove_unused_variables`. -/
def cleanerUsedVars : List Node → List String
  | [] => []
  | .expr (.name id .load _ _) :: rest => id :: cleanerUsedVars rest
  | _ :: rest => cleanerUsedVars rest

/-- `remove_unused_variables` (again fully inside `try/except`; its
variable dictionary is built by the same loop as the analyzer's
`_get_variables`, re-used here). -/
def remove_unused_variables (parse : String → Except PySyntaxError (List Stmt))
    (code : String) : String :=
  match parse code with
  | .error _ => code
  | .ok t =>
      let l := walk t
      let vars := getVariablesL l []
      let used := cleanerUsedVars l
      let unusedLines := vars.filterMap (fun p =>
        if p.1 ∉ used ∧ ¬ pyStartsWith p.1 "_" then some p.2 else none)
      if unusedLines ≠ [] then
        pyJoin "\n"
          ((enumerate (pySplitNl code)).filterMap (fun p =>
            if p.1 + 1 ∈ unusedLines ∧ assignLineMatch p.2 then none else some p.2))
      else code

/-- `clean_code`.  The initial `ast.parse` check returns the input
unchanged on a `SyntaxError`; the `try … except` around the black
formatting is dead in the embedding because `format_with_black` is
total (its own handler already absorbs every failure), exactly as in
the source. -/
def clean_code (isortCode blackFormat autopep8Fix : String → Except Unit String)
    (parse : String → Except PySyntaxError (List Stmt)) (code : String) : String :=
  match parse code with
  | .error _ => code
  | .ok _ =>
      let c1 := sort_imports isortCode code
      let c2 := format_with_black blackFormat c1
      let c3 := remove_unused_imports parse c2
      remove_unused_variables parse c3

/- ### `code_refactor.py` -/

/-- `_is_poor_name`. -/
def isPoorName (name : String) : Bool :=
  if name ∈ ["i", "j", "k", "x", "y", "z"] || pyStartsWith name "_" then false
  else if name.length = 1 ∧ name ∉ ["i", "j", "k", "x", "y", "z"] then true
  else if name ∈ ["temp", "tmp", "var", "foo", "bar", "data"] then true
  else if name.length ≤ 2 ∧ ¬ pyStartsWith name "_" then true
  else false

/-- `_suggest_better_name` (receives the `Assign` node; only
`node.value` is inspected, so the embedding takes the value).  The
`ast.Num`/`ast.Str` compatibility shims match `Constant` nodes whose
payload is numeric resp. a string (`bool` payloads match neither, since
the shims compare `type(value)`). -/
def suggestBetterName (name : String) (value : Expr) : String :=
  if name ∈ ["temp", "tmp"] then "temporary_value"
  else if name.length = 1 then
    match value with
    | .constant (.intVal _) _ _ => "number_value"
    | .constant (.strVal _) _ _ => "string_value"
    | .listLit _ _ _ => "items_list"
    | .dictLit _ _ => "data_map"
    | _ => "value"
  else if name = "var" then "variable"
  else if name = "val" then "value"
  else if name = "arr" then "array"
  else if name = "obj" then "object"
  else if name = "num" then "number"
  else if name = "str" then "string"
  else if name = "dict" then "dictionary"
  else if name = "lst" then "list"
  else name ++ "_value"

/-- The rename message of `rename_variables`. -/
def renameMsg (old new : String) : String :=
  "Renamed variable '" ++ old ++ "' to '" ++ new ++ "'"

/-- Per-`Assign` collection step of `rename_variables`: each `Name`
target with a poor name updates the plan dictionary and appends a
change message (on every encounter, as in the source). -/
def collectPoorTargets (value : Expr) :
    List Expr → List (String × String) × List String → List (String × String) × List String
  | [], st => st
  | .name id _ _ _ :: ts, (dict, chs) =>
      if isPoorName id then
        let better := suggestBetterName id value
        collectPoorTargets value ts (upsert id better dict, chs ++ [renameMsg id better])
      else collectPoorTargets value ts (dict, chs)
  | _ :: ts, st => collectPoorTargets value ts st

/-- The poor-name plan and change list of `rename_variables`, collected
over the walk. -/
def collectPoorL :
    List Node → List (String × String) × List String → List (String × String) × List String
  | [], st => st
  | .stmt (.assign tgts v _ _) :: rest, st =>
      collectPoorL rest (collectPoorTargets v tgts st)
  | _ :: rest, st => collectPoorL rest st

/-- Append a character to the current run decomposition: `rcons c rs`
prepends `c` to `rs`'s first run when the word-character classes agree
and opens a new run otherwise. -/
def rcons (c : Char) : List (List Char) → List (List Char)
  | [] => [[c]]
  | [] :: rs => [c] :: rs
  | (d :: r) :: rs =>
      if isWordChar c == isWordChar d then (c :: d :: r) :: rs
      else [c] :: (d :: r) :: rs

/-- Decompose a character list into its maximal runs of uniform
word-character class. -/
def runsplit : List Char → List (List Char)
  | [] => []
  | c :: rest => rcons c (runsplit rest)

/-- `re.sub(r'\b' + re.escape(old) + r'\b', new, line)` for `old` a
nonempty all-word-character identifier: a `\b…\b` occurrence of such an
`old` is exactly a maximal word-character run equal to `old`, so the
substitution replaces each such run by `new`. -/
def renameSubL (old new : List Char) (s : List Char) : List Char :=
  ((runsplit s).map (fun r => if r = old then new else r)).flatten

/-- One line after all pair substitutions of `rename_variables` (the
inner `for old_name, new_name in poor_names.items()` loop). -/
def renameSubLine (pairs : List (String × String)) (line : String) : String :=
  String.mk (pairs.foldl (fun l p => renameSubL p.1.data p.2.data l) line.data)

/-- `rename_variables`. -/
def rename_variables (code : String) (t : List Stmt) : String × List String :=
  let st := collectPoorL (walk t) ([], [])
  if st.1 ≠ [] then
    (pyJoin "\n" ((pySplitNl code).map (renameSubLine st.1)), st.2)
  else (code, st.2)

/-- Python `str.replace` scanning loop for a nonempty pattern
`p :: ps`: replace every non-overlapping occurrence, left to right.
Each step consumes at least one input character, so `fuel` initialized
to the input length never runs out (the `0` fallback is unreachable).-/
def pyReplaceGo (p : Char) (ps repl : List Char) : Nat → List Char → List Char
  | 0, s => s
  | _ + 1, [] => []
  | fuel + 1, c :: rest =>
      if (p :: ps).isPrefixOf (c :: rest) then
        repl ++ pyReplaceGo p ps repl fuel (rest.drop ps.length)
      else c :: pyReplaceGo p ps repl fuel rest

/-- Python `s.replace(pat, repl)` (every use in the repository has a
nonempty pattern; the empty-pattern case returns `s`). -/
def pyReplace (s pat repl : String) : String :=
  match pat.data with
  | [] => s
  | p :: ps => String.mk (pyReplaceGo p ps repl.data s.data.length s.data)

/-- The candidate expressions of `extract_functions`: stripped segments
of standalone expression statements whose value is not a constant
(`isinstance(node.value, (ast.Str, ast.Constant))` — the `ast.Str` shim
matches `Constant` nodes) and whose stripped segment exceeds 20
characters (an empty segment is falsy and skipped). -/
def extractExprs : List Node → List String
  | [] => []
  | .stmt (.exprStmt v _ seg) :: rest =>
      (match v with
       | .constant _ _ _ => []
       | _ =>
        match seg with
        | some s => if s ≠ "" ∧ (pyStrip s).length > 20 then [pyStrip s] else []
        | none => []) ++ extractExprs rest
  | _ :: rest => extractExprs rest

/-- `collections.Counter` over a list: occurrence counts, keyed in
first-seen order. -/
def counterOf : List String → List (String × Nat) → List (String × Nat)
  | [], acc => acc
  | s :: rest, acc =>
      counterOf rest (match lookupA acc s with
        | some n => upsert s (n + 1) acc
        | none => upsert s 1 acc)

/-- The synthesized function definition text of `extract_functions`. -/
def mkFuncDef (name expr : String) : String :=
  pyJoin "\n"
    (("def " ++ name ++ "():") :: (pySplitNl expr).map (fun l => "    " ++ l) ++ [""])

/-- Build the `extracted_funcs` triples and change messages from the
counter: fragments occurring more than once and spanning fewer than 5
lines, named `extracted_function_<n>` in first-seen order. -/
def buildExtracted :
    List (String × Nat) → List (String × String × String) × List String
      → List (String × String × String) × List String
  | [], st => st
  | (expr, count) :: rest, (funcs, chs) =>
      if count > 1 ∧ (pySplitNl expr).length < 5 then
        let fname := "extracted_function_" ++ toString (funcs.length + 1)
        buildExtracted rest
          (funcs ++ [(expr, fname, mkFuncDef fname expr)],
           chs ++ ["Extracted repeated code into function '" ++ fname ++ "'"])
      else buildExtracted rest (funcs, chs)

/-- Python `list.insert(i, x)` (the index is clamped). -/
def pyInsertAt (l : List String) (i : Nat) (x : String) : List String :=
  l.take i ++ [x] ++ l.drop i

/-- Does the line start with `import` or `from` followed by whitespace
(`re.match(r'^(import|from)\s+', line)`)? -/
def isImportLine (line : String) : Bool :=
  kwThenSpace "import" line || kwThenSpace "from" line
where
  /-- The keyword followed by at least one whitespace character. -/
  kwThenSpace (kw : String) (l : String) : Bool :=
    kw.data.isPrefixOf l.data &&
      (match l.data.drop kw.length with
       | c :: _ => pyIsSpace c
       | [] => false)

/-- The insertion index after the last import line (`import_end`):
index of the last matching line plus one, or `0`. -/
def importEnd : List String → Nat → Nat → Nat
  | [], _, acc => acc
  | l :: rest, i, acc => importEnd rest (i + 1) (if isImportLine l then i + 1 else acc)

/-- The function-definition insertion loop of `extract_functions`. -/
def insertFuncs :
    List (String × String × String) → List String × Nat → List String × Nat
  | [], st => st
  | (_, _, fd) :: rest, (lines, idx) =>
      insertFuncs rest (pyInsertAt lines idx fd, idx + (fd.data.count '\n') + 1)

/-- `'\n'.join(lines)` where `lines` is either still the line list or —
after the first loop iteration rebinds it — a single string, in which
case Python joins its *characters* with newlines. -/
def joinPy : Sum (List String) String → String
  | .inl ls => pyJoin "\n" ls
  | .inr s => pyJoin "\n" (s.data.map (fun c => String.mk [c]))

/-- The occurrence-replacement loop of `extract_functions`
(`lines = code_str.replace(expr, func_name + "()")` rebinds `lines` to
a string on the first iteration). -/
def replaceLoop :
    List (String × String × String) → Sum (List String) String → Sum (List String) String
  | [], st => st
  | (expr, fname, _) :: rest, st =>
      replaceLoop rest (.inr (pyReplace (joinPy st) expr (fname ++ "()")))

/-- `extract_functions`.  (When `extracted_funcs` is nonempty the
replacement loop runs at least once, so the final state is always a
string; the `.inl` fallback below is unreachable.) -/
def extract_functions (code : String) (t : List Stmt) : String × List String :=
  let built := buildExtracted (counterOf (extractExprs (walk t)) []) ([], [])
  if built.1 ≠ [] then
    let lines := pySplitNl code
    let inserted := insertFuncs built.1 (lines, importEnd lines 0 0)
    (match replaceLoop built.1 (.inl inserted.1) with
     | .inl ls => pyJoin "\n" ls
     | .inr s => s, built.2)
  else (code, built.2)

/-- `simplify_expressions`: detection only, the code is returned
unchanged (two separate walks appending to `changes`). -/
def simplify_expressions (code : String) (t : List Stmt) : String × List String :=
  let l := walk t
  let ch1 := l.foldr (fun n acc =>
    (match n with
     | .expr (.boolOp vs _ _) =>
         if vs.length > 3 then
           ["Identified complex boolean expression that could be simplified"]
         else []
     | _ => []) ++ acc) []
  let ch2 := l.foldr (fun n acc =>
    (match n with
     | .stmt (.forStmt _ _ body _ _) =>
         (match body with
          | [.forStmt _ _ _ _ _] =>
              ["Identified nested loop that could be simplified or refactored"]
          | _ => [])
     | _ => []) ++ acc) []
  (code, ch1 ++ ch2)

/-- The `seg` field of an expression (`ast.get_source_segment(code, e)`). -/
def exprSegOf : Expr → Option String
  | .name _ _ _ s => s
  | .attribute _ _ _ _ s => s
  | .constant _ _ s => s
  | .boolOp _ _ s => s
  | .binOp _ _ _ s => s
  | .call _ _ _ s => s
  | .listLit _ _ s => s
  | .dictLit _ s => s

/-- Per-`Assign` step of `apply_dry_principles`: append each `Name`
target's id under the rendered right-hand side. -/
def dryTargets (rs : Option String) :
    List Expr → List (String × List String) → List (String × List String)
  | [], acc => acc
  | .name id _ _ _ :: ts, acc =>
      (match rs with
       | some r =>
           dryTargets rs ts (match lookupA acc r with
             | some vs => upsert r (vs ++ [id]) acc
             | none => upsert r [id] acc)
       | none => dryTargets rs ts acc)
  | _ :: ts, acc => dryTargets rs ts acc

/-- The `blocks` dictionary of `apply_dry_principles`. -/
def dryBlocks : List Node → List (String × List String) → List (String × List String)
  | [], acc => acc
  | .stmt (.assign tgts v _ _) :: rest, acc => dryBlocks rest (dryTargets (exprSegOf v) tgts acc)
  | _ :: rest, acc => dryBlocks rest acc

/-- `apply_dry_principles`: detection only, the code is returned
unchanged. -/
def apply_dry_principles (code : String) (t : List Stmt) : String × List String :=
  let dups := (dryBlocks (walk t) []).filter (fun p => p.2.length > 1)
  (code,
    dups.filterMap (fun p =>
      if (pyStrip p.1).length > 5 then
        some ("Identified repeated assignment of '" ++ p.1 ++ "' to variables: "
          ++ pyJoin ", " p.2)
      else none))

/-- The `refactor_code` error result. -/
def refactorSyntaxFail (code : String) : String × List String :=
  (code, ["Could not refactor due to syntax errors"])

/-- Stage 4 of `refactor_code`: `apply_dry_principles` (no re-parse
afterwards). -/
def refactorStage4 (code : String) (t : List Stmt) (chs : List String) : String × List String :=
  let r := apply_dry_principles code t
  if r.2 ≠ [] then (r.1, chs ++ r.2) else (code, chs ++ r.2)

/-- Stage 3 of `refactor_code`: `simplify_expressions`, re-parsing when
it reported changes (a mid-pipeline `SyntaxError` returns the *current*
text with the failure entry, discarding earlier change messages, as in
the source's single `except SyntaxError`). -/
def refactorStage3 (parse : String → Except PySyntaxError (List Stmt))
    (code : String) (t : List Stmt) (chs : List String) : String × List String :=
  let r := simplify_expressions code t
  if r.2 ≠ [] then
    match parse r.1 with
    | .error _ => refactorSyntaxFail r.1
    | .ok t' => refactorStage4 r.1 t' (chs ++ r.2)
  else refactorStage4 code t chs

/-- Stage 2 of `refactor_code`: `extract_functions`, re-parsing when it
reported changes. -/
def refactorStage2 (parse : String → Except PySyntaxError (List Stmt))
    (code : String) (t : List Stmt) (chs : List String) : String × List String :=
  let r := extract_functions code t
  if r.2 ≠ [] then
    match parse r.1 with
    | .error _ => refactorSyntaxFail r.1
    | .ok t' => refactorStage3 parse r.1 t' (chs ++ r.2)
  else refactorStage3 parse code t chs

/-- `refactor_code`: parse, then the four passes in order, re-parsing
after each pass that changed the text. -/
def refactor_code (parse : String → Except PySyntaxError (List Stmt))
    (code : String) : String × List String :=
  match parse code with
  | .error _ => refactorSyntaxFail code
  | .ok t =>
      let r := rename_variables code t
      if r.2 ≠ [] then
        match parse r.1 with
        | .error _ => refactorSyntaxFail r.1
        | .ok t' => refactorStage2 parse r.1 t' r.2
      else refactorStage2 parse code t []

/- ### `diff_generator.py` -/

/-- Python `str.splitlines()` scanning loop (`acc` is the reversed
current line); handles the `\n`, `\r\n` and `\r` terminators. -/
def pySplitlinesGo : List Char → List Char → List (List Char)
  | [], [] => []
  | [], acc => [acc.reverse]
  | '\r' :: '\n' :: rest, acc => acc.reverse :: pySplitlinesGo rest []
  | '\n' :: rest, acc => acc.reverse :: pySplitlinesGo rest []
  | '\r' :: rest, acc => acc.reverse :: pySplitlinesGo rest []
  | c :: rest, acc => pySplitlinesGo rest (c :: acc)

/-- Python `str.splitlines()`. -/
def pySplitlines (s : String) : List String :=
  (pySplitlinesGo s.data []).map String.mk

/-- Modelled from the spec: the external line differ `difflib.ndiff`
(spec §4.5: "a character/line-level diff supporting insertion,
deletion, and unchanged markers, plus an optional hint marker line") is
a black-box collaborator; this model emits `"- "`-, `"+ "`- and
`"  "`-marked lines, preferring the unchanged marker on equal lines
(the `"? "` hint lines, which the renderer drops, are not emitted). -/
def ndiff : List String → List String → List String
  | [], lb => lb.map (fun b => "+ " ++ b)
  | a :: la, [] => ("- " ++ a) :: ndiff la []
  | a :: la, b :: lb =>
      if a = b then ("  " ++ a) :: ndiff la lb
      else ("- " ++ a) :: ("+ " ++ b) :: ndiff la lb

/-- `html.escape(s)` for one character (`quote=True`: ampersand, angle
brackets and both quote characters). -/
def escChar (c : Char) : List Char :=
  if c = '&' then "&amp;".data
  else if c = '<' then "&lt;".data
  else if c = '>' then "&gt;".data
  else if c = '"' then "&quot;".data
  else if c = '\'' then "&#x27;".data
  else [c]

/-- `html.escape`. -/
def pyEscape (s : String) : String :=
  String.mk ((s.data.map escChar).flatten)

/-- Python `line[2:]`. -/
def pyDrop2 (line : String) : String :=
  String.mk (line.data.drop 2)

/-- The per-line classification of `highlight_diff`: `"+ "` → added,
`"- "` → removed, `"? "` → dropped, everything else → unchanged (with
the `"  "` prefix stripped when present); content is HTML-escaped. -/
def divOf (line : String) : Option String :=
  if pyStartsWith line "+ " then
    some ("<div class=\"diff-added\">" ++ pyEscape (pyDrop2 line) ++ "</div>")
  else if pyStartsWith line "- " then
    some ("<div class=\"diff-removed\">" ++ pyEscape (pyDrop2 line) ++ "</div>")
  else if pyStartsWith line "? " then none
  else
    some ("<div class=\"diff-unchanged\">"
      ++ pyEscape (if pyStartsWith line "  " then pyDrop2 line else line) ++ "</div>")

/-- The fixed style/header lines of `highlight_diff`. -/
def diffStyleHeader : List String :=
  ["<style>",
   ".diff-container \x7b font-family: monospace; white-space: pre; \x7d",
   ".diff-added \x7b background-color: #e6ffed; color: #24292e; \x7d",
   ".diff-removed \x7b background-color: #ffeef0; color: #24292e; \x7d",
   ".diff-unchanged \x7b color: #24292e; \x7d",
   "</style>",
   "<div class=\"diff-container\">"]

/-- `highlight_diff`. -/
def highlight_diff (diffLines : List String) : String :=
  pyJoin "\n" (diffStyleHeader ++ diffLines.filterMap divOf ++ ["</div>"])

/-- `generate_diff` (the spec's `renderDiff`). -/
def generate_diff (originalCode refactoredCode : String) : String :=
  highlight_diff (ndiff (pySplitlines originalCode) (pySplitlines refactoredCode))

/- ### Shared concrete parse functions for witnesses -/

/-- A collaborator parse function that accepts everything as the empty
module. -/
def parseEmpty : String → Except PySyntaxError (List Stmt) :=
  fun _ => Except.ok []

/-- A collaborator parse function that always reports a syntax error at
line 3. -/
def parseFail3 : String → Except PySyntaxError (List Stmt) :=
  fun _ => Except.error ⟨3, "invalid syntax"⟩

/-- A collaborator formatter that always raises. -/
def failingFormatter : String → Except Unit String :=
  fun _ => Except.error ()

/- ### C1 -/

/-- C1: for every syntactically valid input (the tree builder returns a
tree), `analyze_code` returns a mapping whose key sequence is exactly
the twelve fixed category names, each mapped to a (possibly empty) list
of finding strings, and the synthetic `Syntax Errors` / `Errors`
categories are absent. -/
theorem analyze_valid_has_twelve_categories
    (parse : String → Except PySyntaxError (List Stmt)) (code : String)
    (t : List Stmt) (h : parse code = Except.ok t) :
    (analyze_code parse code).map Prod.fst =
      ["Unused Imports", "Unused Variables", "Complex Expressions", "Nested Loops",
       "Long Functions", "Code Duplication", "Poorly Named Variables", "Magic Numbers",
       "Missing Docstrings", "Excessive Line Length", "Too Many Arguments",
       "Global Variables"]
    ∧ "Syntax Errors" ∉ (analyze_code parse code).map Prod.fst
    ∧ "Errors" ∉ (analyze_code parse code).map Prod.fst := by
  have hk : (analyze_code parse code).map Prod.fst =
      ["Unused Imports", "Unused Variables", "Complex Expressions", "Nested Loops",
       "Long Functions", "Code Duplication", "Poorly Named Variables", "Magic Numbers",
       "Missing Docstrings", "Excessive Line Length", "Too Many Arguments",
       "Global Variables"] := by
    simp [analyze_code, h]
  refine ⟨hk, ?_, ?_⟩ <;> rw [hk] <;> decide

/-- Witness for C1 at a concrete parse function, source text and tree. -/
theorem analyze_valid_has_twelve_categories_witness :
    (analyze_code parseEmpty "").map Prod.fst =
      ["Unused Imports", "Unused Variables", "Complex Expressions", "Nested Loops",
       "Long Functions", "Code Duplication", "Poorly Named Variables", "Magic Numbers",
       "Missing Docstrings", "Excessive Line Length", "Too Many Arguments",
       "Global Variables"]
    ∧ "Syntax Errors" ∉ (analyze_code parseEmpty "").map Prod.fst
    ∧ "Errors" ∉ (analyze_code parseEmpty "").map Prod.fst :=
  analyze_valid_has_twelve_categories parseEmpty "" [] rfl

/- ### C2 -/

/-- C2: for every syntactically invalid input (the tree builder raises
a `SyntaxError`), `analyze_code` returns the single synthetic
`Syntax Errors` category carrying the error's line and message, and
both `clean_code` and `refactor_code` return the input text unchanged,
`refactor_code` pairing it with the single descriptive failure entry. -/
theorem invalid_input_syntax_failure
    (parse : String → Except PySyntaxError (List Stmt)) (code : String)
    (e : PySyntaxError) (h : parse code = Except.error e)
    (isortCode blackFormat autopep8Fix : String → Except Unit String) :
    analyze_code parse code =
      [("Syntax Errors", ["Line " ++ toString e.lineno ++ ": " ++ e.msg])]
    ∧ clean_code isortCode blackFormat autopep8Fix parse code = code
    ∧ refactor_code parse code = (code, ["Could not refactor due to syntax errors"]) := by
  refine ⟨?_, ?_, ?_⟩
  · simp [analyze_code, h]
  · simp [clean_code, h]
  · simp [refactor_code, refactorSyntaxFail, h]

/-- Witness for C2 at a concrete failing parse. -/
theorem invalid_input_syntax_failure_witness :
    analyze_code parseFail3 "def f(:" =
      [("Syntax Errors", ["Line 3: invalid syntax"])]
    ∧ clean_code failingFormatter failingFormatter failingFormatter parseFail3 "def f(:"
        = "def f(:"
    ∧ refactor_code parseFail3 "def f(:"
        = ("def f(:", ["Could not refactor due to syntax errors"]) :=
  invalid_input_syntax_failure parseFail3 "def f(:" ⟨3, "invalid syntax"⟩ rfl
    failingFormatter failingFormatter failingFormatter

/- ### C10 -/

/-- C10: `clean_code` is total (a Lean function of type
`String → String`), and each internal step absorbs its collaborator's
failure by returning its input text unchanged: `sort_imports` when
`isort.code` raises, `format_with_black`/`format_with_autopep8` when
the formatter raises, and the two removal steps when re-parsing raises;
moreover with failing sort/format collaborators the pipeline continues
into the removal steps on the unchanged text rather than propagating
the failure. -/
theorem clean_steps_absorb_failures :
    (∀ (f : String → Except Unit String) (code : String),
      f code = Except.error () → sort_imports f code = code)
    ∧ (∀ (f : String → Except Unit String) (code : String),
      f code = Except.error () → format_with_black f code = code)
    ∧ (∀ (f : String → Except Unit String) (code : String),
      f code = Except.error () → format_with_autopep8 f code = code)
    ∧ (∀ (parse : String → Except PySyntaxError (List Stmt)) (code : String)
        (e : PySyntaxError), parse code = Except.error e →
        remove_unused_imports parse code = code)
    ∧ (∀ (parse : String → Except PySyntaxError (List Stmt)) (code : String)
        (e : PySyntaxError), parse code = Except.error e →
        remove_unused_variables parse code = code)
    ∧ (∀ (isortCode blackFormat autopep8Fix : String → Except Unit String)
        (parse : String → Except PySyntaxError (List Stmt)) (code : String)
        (t : List Stmt), parse code = Except.ok t →
        isortCode code = Except.error () → blackFormat code = Except.error () →
        clean_code isortCode blackFormat autopep8Fix parse code =
          remove_unused_variables parse (remove_unused_imports parse code)) := by
  refine ⟨?_, ?_, ?_, ?_, ?_, ?_⟩
  · intro f code h; simp [sort_imports, h]
  · intro f code h; simp [format_with_black, h]
  · intro f code h; simp [format_with_autopep8, h]
  · intro parse code e h; simp [remove_unused_imports, h]
  · intro parse code e h; simp [remove_unused_variables, h]
  · intro i b a parse code t hp hi hb
    simp [clean_code, hp, sort_imports, hi, format_with_black, hb]

/-- Witness for C10 at concrete failing collaborators. -/
theorem clean_steps_absorb_failures_witness :
    sort_imports failingFormatter "x = 1" = "x = 1"
    ∧ format_with_black failingFormatter "x = 1" = "x = 1"
    ∧ format_with_autopep8 failingFormatter "x = 1" = "x = 1"
    ∧ remove_unused_imports parseFail3 "x = 1" = "x = 1"
    ∧ remove_unused_variables parseFail3 "x = 1" = "x = 1"
    ∧ clean_code failingFormatter failingFormatter failingFormatter parseEmpty "x = 1"
        = remove_unused_variables parseEmpty (remove_unused_imports parseEmpty "x = 1") :=
  ⟨clean_steps_absorb_failures.1 failingFormatter "x = 1" rfl,
   clean_steps_absorb_failures.2.1 failingFormatter "x = 1" rfl,
   clean_steps_absorb_failures.2.2.1 failingFormatter "x = 1" rfl,
   clean_steps_absorb_failures.2.2.2.1 parseFail3 "x = 1" ⟨3, "invalid syntax"⟩ rfl,
   clean_steps_absorb_failures.2.2.2.2.1 parseFail3 "x = 1" ⟨3, "invalid syntax"⟩ rfl,
   clean_steps_absorb_failures.2.2.2.2.2 failingFormatter failingFormatter failingFormatter
     parseEmpty "x = 1" [] rfl rfl rfl⟩

/- ### C9 lemmas -/

/-- The magic-number message. -/
def magicMsg (v : Int) (ln : Nat) : String :=
  "Magic number " ++ toString v ++ " at line " ++ toString ln

/-- Soundness of `magicNumbersL`: every non-allow-listed numeric
constant in the node list yields its finding. -/
theorem mem_magicNumbersL {l : List Node} {v : Int} {ln : Nat}
    (h : some (v, ln) ∈ l.map magicInfo) (hv : v ∉ magicAllowed) :
    magicMsg v ln ∈ magicNumbersL l := by
  induction l with
  | nil => simp at h
  | cons x rest ih =>
    rw [List.map_cons, List.mem_cons] at h
    show magicMsg v ln ∈ magicAt x ++ magicNumbersL rest
    rcases h with h | h
    · have hx : magicAt x = [magicMsg v ln] := by
        simp [magicAt, ← h, hv, magicMsg]
      rw [hx]
      exact List.mem_append_left _ (List.mem_singleton.mpr rfl)
    · exact List.mem_append_right _ (ih h)

/-- Completeness of `magicNumbersL`: every finding comes from a
non-allow-listed numeric constant. -/
theorem magicNumbersL_mem {l : List Node} {m : String}
    (h : m ∈ magicNumbersL l) :
    ∃ v ln, some (v, ln) ∈ l.map magicInfo ∧ v ∉ magicAllowed ∧ m = magicMsg v ln := by
  induction l with
  | nil => simp [magicNumbersL] at h
  | cons x rest ih =>
    have h' : m ∈ magicAt x ++ magicNumbersL rest := h
    rcases List.mem_append.mp h' with hl | hr
    · match hmi : magicInfo x with
      | none => rw [magicAt, hmi] at hl; simp at hl
      | some p =>
        obtain ⟨v, ln⟩ := p
        by_cases hv : v ∈ magicAllowed
        · rw [magicAt, hmi] at hl; simp [hv] at hl
        · rw [magicAt, hmi] at hl
          simp only [hv, if_false, List.mem_singleton] at hl
          exact ⟨v, ln, by simp [hmi], hv, hl⟩
    · obtain ⟨v, ln, hmem, hv, hm⟩ := ih hr
      exact ⟨v, ln, by rw [List.map_cons]; exact List.mem_cons_of_mem _ hmem, hv, hm⟩

/-- The concrete one-literal tree `7` (the parse of the source text
`"7"`). -/
def magic7Tree : List Stmt :=
  [Stmt.exprStmt (Expr.constant (.intVal 7) 1 (some "7")) 1 (some "7")]

/-- The concrete one-literal tree `100`. -/
def magic100Tree : List Stmt :=
  [Stmt.exprStmt (Expr.constant (.intVal 100) 1 (some "100")) 1 (some "100")]

/- ### C9 -/

/-- C9: `analyze_code` reports a numeric literal under `Magic Numbers`
exactly when its value is outside the allow-list `{0, 1, -1, 2, 10,
100}`: the category holds `magicNumbersL` of the walk; every
non-allow-listed constant node produces its finding and every finding
comes from such a node; concretely, the one-literal program `7` is
flagged at line 1 and the one-literal program `100` yields no finding. -/
theorem magic_numbers_iff_not_allowed :
    (∀ (parse : String → Except PySyntaxError (List Stmt)) (code : String)
      (t : List Stmt), parse code = Except.ok t →
      lookupCat (analyze_code parse code) "Magic Numbers" = some (magicNumbersL (walk t)))
    ∧ (∀ (t : List Stmt) (v : Int) (ln : Nat),
      some (v, ln) ∈ (walk t).map magicInfo → v ∉ magicAllowed →
      magicMsg v ln ∈ magicNumbersL (walk t))
    ∧ (∀ (t : List Stmt) (m : String), m ∈ magicNumbersL (walk t) →
      ∃ v ln, some (v, ln) ∈ (walk t).map magicInfo ∧ v ∉ magicAllowed
        ∧ m = magicMsg v ln)
    ∧ lookupCat (analyze_code (fun _ => Except.ok magic7Tree) "7") "Magic Numbers"
        = some ["Magic number 7 at line 1"]
    ∧ lookupCat (analyze_code (fun _ => Except.ok magic100Tree) "100") "Magic Numbers"
        = some [] := by
  refine ⟨?_, ?_, ?_, ?_, ?_⟩
  · intro parse code t h
    simp [analyze_code, h, lookupCat, findDuplicatedCode]
  · intro t v ln h hv
    exact mem_magicNumbersL h hv
  · intro t m h
    exact magicNumbersL_mem h
  · rfl
  · rfl

/-- Witness for C9: the literal `7` at line 1 of the concrete tree is
outside the allow-list and therefore reported. -/
theorem magic_numbers_iff_not_allowed_witness :
    magicMsg 7 1 ∈ magicNumbersL (walk magic7Tree) :=
  magic_numbers_iff_not_allowed.2.1 magic7Tree 7 1 (by decide) (by decide)

/- ### C8 lemmas -/

/-- The nested-loop message. -/
def nestedMsg (d ln : Nat) : String :=
  "Nested loop with " ++ toString d ++ " levels at line " ++ toString ln

/-- Soundness of the nested-loop detector: every loop node whose
computed depth exceeds 1 yields its finding. -/
theorem mem_nestedLoops {l : List Node} {d ln : Nat}
    (h : some (d, ln) ∈ l.map loopInfo) (hd : d > 1) :
    nestedMsg d ln ∈ (findComplexCode l).2 := by
  induction l with
  | nil => simp at h
  | cons x rest ih =>
    rw [List.map_cons, List.mem_cons] at h
    show nestedMsg d ln ∈ nestedLoopAt x ++ (findComplexCode rest).2
    rcases h with h | h
    · have hx : nestedLoopAt x = [nestedMsg d ln] := by
        simp [nestedLoopAt, ← h, hd, nestedMsg]
      rw [hx]
      exact List.mem_append_left _ (List.mem_singleton.mpr rfl)
    · exact List.mem_append_right _ (ih h)

/-- Completeness of the nested-loop detector: every finding comes from
a loop node whose computed depth exceeds 1. -/
theorem nestedLoops_mem {l : List Node} {m : String}
    (h : m ∈ (findComplexCode l).2) :
    ∃ d ln, some (d, ln) ∈ l.map loopInfo ∧ d > 1 ∧ m = nestedMsg d ln := by
  induction l with
  | nil => simp [findComplexCode] at h
  | cons x rest ih =>
    have h' : m ∈ nestedLoopAt x ++ (findComplexCode rest).2 := h
    rcases List.mem_append.mp h' with hl | hr
    · match hmi : loopInfo x with
      | none => rw [nestedLoopAt, hmi] at hl; simp at hl
      | some p =>
        obtain ⟨d, ln⟩ := p
        by_cases hd : d > 1
        · rw [nestedLoopAt, hmi] at hl
          simp only [hd, if_true, List.mem_singleton] at hl
          exact ⟨d, ln, by simp [hmi], hd, hl⟩
        · rw [nestedLoopAt, hmi] at hl; simp [hd] at hl
    · obtain ⟨d, ln, hmem, hd, hm⟩ := ih hr
      exact ⟨d, ln, by rw [List.map_cons]; exact List.mem_cons_of_mem _ hmem, hd, hm⟩

/-- `range(2)` iterator expression used by the concrete loop trees. -/
def rangeCall (ln : Nat) : Expr :=
  Expr.call (Expr.name "range" .load ln none) [Expr.constant (.intVal 2) ln none] ln none

/-- The parse of
`for i in range(2):\n for j in range(2):\n  for k in range(2):\n   pass`. -/
def tripleLoopTree : List Stmt :=
  [Stmt.forStmt (Expr.name "i" .store 1 none) (rangeCall 1)
    [Stmt.forStmt (Expr.name "j" .store 2 none) (rangeCall 2)
      [Stmt.forStmt (Expr.name "k" .store 3 none) (rangeCall 3)
        [Stmt.passStmt 4] [] 3]
      [] 2]
    [] 1]

/-- The parse of `for i in range(2):\n pass`. -/
def singleLoopTree : List Stmt :=
  [Stmt.forStmt (Expr.name "i" .store 1 none) (rangeCall 1) [Stmt.passStmt 2] [] 1]

/- ### C8 -/

/-- C8: a loop is reported under `Nested Loops` exactly when its
recursively computed maximum loop-nesting depth exceeds 1 (`nestDepth`,
the embedding of `_check_nested_loops`, recursing over directly nested
loop children and taking maxima): the category holds the walk's
nested-loop findings, soundness and completeness hold, the concrete
triple-nested loop is reported with depth 3 at the outer loop's line 1
(and depth 2 at line 2 for the middle loop), and the concrete single
loop yields no finding. -/
theorem nested_loops_reported_iff_depth_gt_one :
    (∀ (parse : String → Except PySyntaxError (List Stmt)) (code : String)
      (t : List Stmt), parse code = Except.ok t →
      lookupCat (analyze_code parse code) "Nested Loops"
        = some ((findComplexCode (walk t)).2))
    ∧ (∀ (t : List Stmt) (d ln : Nat),
      some (d, ln) ∈ (walk t).map loopInfo → d > 1 →
      nestedMsg d ln ∈ (findComplexCode (walk t)).2)
    ∧ (∀ (t : List Stmt) (m : String), m ∈ (findComplexCode (walk t)).2 →
      ∃ d ln, some (d, ln) ∈ (walk t).map loopInfo ∧ d > 1 ∧ m = nestedMsg d ln)
    ∧ lookupCat (analyze_code (fun _ => Except.ok tripleLoopTree)
        "for i in range(2):\n    for j in range(2):\n        for k in range(2):\n            pass")
        "Nested Loops"
        = some ["Nested loop with 3 levels at line 1", "Nested loop with 2 levels at line 2"]
    ∧ lookupCat (analyze_code (fun _ => Except.ok singleLoopTree)
        "for i in range(2):\n    pass") "Nested Loops"
        = some [] := by
  refine ⟨?_, ?_, ?_, ?_, ?_⟩
  · intro parse code t h
    simp [analyze_code, h, lookupCat, findDuplicatedCode]
  · intro t d ln h hd
    exact mem_nestedLoops h hd
  · intro t m h
    exact nestedLoops_mem h
  · rfl
  · rfl

/-- Witness for C8: the outer loop of the concrete triple-nested tree
has computed depth 3 and is reported. -/
theorem nested_loops_reported_iff_depth_gt_one_witness :
    nestedMsg 3 1 ∈ (findComplexCode (walk tripleLoopTree)).2 :=
  nested_loops_reported_iff_depth_gt_one.2.1 tripleLoopTree 3 1 (by decide) (by decide)

/- ### C3 lemmas -/

/-- Lookup after a `dict` upsert. -/
theorem lookupA_upsert {α : Type} (k : String) (v : α) :
    ∀ (l : List (String × α)) (q : String),
      lookupA (upsert k v l) q = if k = q then some v else lookupA l q := by
  intro l
  induction l with
  | nil =>
    intro q
    simp only [upsert, lookupA]
  | cons p rest ih =>
    intro q
    obtain ⟨k', v'⟩ := p
    by_cases h : k' = k
    · subst h
      by_cases hq : k' = q <;> simp [upsert, lookupA, hq]
    · simp only [upsert, if_neg h, lookupA, ih]
      by_cases hq : k' = q
      · subst hq
        have hk : ¬ k = k' := fun hc => h hc.symm
        simp [hk]
      · simp [hq]

/-- The first line at which a normalized key occurs in the harvested
statement list. -/
def firstLineIn : List (String × Nat) → String → Option Nat
  | [], _ => none
  | (s, ln) :: rest, n => if normalizeStmt s = n then some ln else firstLineIn rest n

/-- Core property of the `seen` scan of `_find_duplicated_code`: a
harvested statement whose normalized text was first seen at a
*different* line is reported against that first-seen line. -/
theorem dupScan_mem {n : String} {c : Nat} {s : String} {b : Nat}
    (hn : normalizeStmt s = n) (hbc : b ≠ c) :
    ∀ (stmts seen : List (String × Nat)),
      (s, b) ∈ stmts →
      (lookupA seen n = some c ∨ (lookupA seen n = none ∧ firstLineIn stmts n = some c)) →
      dupMsg c b ∈ dupScan seen stmts := by
  intro stmts
  induction stmts with
  | nil =>
    intro seen hmem _
    simp at hmem
  | cons hd rest ih =>
    intro seen hmem hdisj
    obtain ⟨s0, b0⟩ := hd
    match hh : lookupA seen (normalizeStmt s0) with
    | some l =>
      by_cases hlb : l = b0
      · -- else branch: the key re-maps to its first-seen line
        have hstep : dupScan seen ((s0, b0) :: rest)
            = dupScan (upsert (normalizeStmt s0) b0 seen) rest := by
          simp [dupScan, hh, hlb]
        rw [hstep]
        rcases List.mem_cons.mp hmem with heq | hmem'
        · have hs : s = s0 := congrArg Prod.fst heq
          have hb : b = b0 := congrArg Prod.snd heq
          exfalso
          rcases hdisj with hsome | ⟨hnone, _⟩
          · rw [← hn, hs, hh] at hsome
            have : l = c := Option.some_inj.mp hsome
            exact hbc (by rw [hb, ← hlb, this])
          · rw [← hn, hs, hh] at hnone
            exact Option.noConfusion hnone
        · refine ih (upsert (normalizeStmt s0) b0 seen) hmem' ?_
          by_cases hkey : normalizeStmt s0 = n
          · left
            rcases hdisj with hsome | ⟨hnone, _⟩
            · rw [← hkey, hh] at hsome
              have hc : l = c := Option.some_inj.mp hsome
              rw [lookupA_upsert, if_pos hkey, ← hlb, hc]
            · rw [← hkey, hh] at hnone
              exact absurd hnone (by simp)
          · rcases hdisj with hsome | ⟨hnone, hfirst⟩
            · left
              rw [lookupA_upsert, if_neg hkey]
              exact hsome
            · right
              refine ⟨by rw [lookupA_upsert, if_neg hkey]; exact hnone, ?_⟩
              rw [firstLineIn, if_neg hkey] at hfirst
              exact hfirst
      · -- duplicate found: emit the message, keep `seen`
        have hstep : dupScan seen ((s0, b0) :: rest)
            = dupMsg l b0 :: dupScan seen rest := by
          simp [dupScan, hh, hlb]
        rw [hstep]
        rcases List.mem_cons.mp hmem with heq | hmem'
        · have hs : s = s0 := congrArg Prod.fst heq
          have hb : b = b0 := congrArg Prod.snd heq
          rcases hdisj with hsome | ⟨hnone, _⟩
          · rw [← hn, hs, hh] at hsome
            have hc : l = c := Option.some_inj.mp hsome
            rw [hc, hb]
            exact List.mem_cons_self _ _
          · rw [← hn, hs, hh] at hnone
            exact absurd hnone (by simp)
        · refine List.mem_cons_of_mem _ (ih seen hmem' ?_)
          rcases hdisj with hsome | ⟨hnone, hfirst⟩
          · left; exact hsome
          · by_cases hkey : normalizeStmt s0 = n
            · rw [← hkey, hh] at hnone
              exact absurd hnone (by simp)
            · right
              refine ⟨hnone, ?_⟩
              rw [firstLineIn, if_neg hkey] at hfirst
              exact hfirst
    | none =>
      have hstep : dupScan seen ((s0, b0) :: rest)
          = dupScan (upsert (normalizeStmt s0) b0 seen) rest := by
        simp [dupScan, hh]
      rw [hstep]
      rcases List.mem_cons.mp hmem with heq | hmem'
      · have hs : s = s0 := congrArg Prod.fst heq
        have hb : b = b0 := congrArg Prod.snd heq
        exfalso
        rcases hdisj with hsome | ⟨hnone, hfirst⟩
        · rw [← hn, hs, hh] at hsome
          exact Option.noConfusion hsome
        · rw [firstLineIn, if_pos (by rw [← hs, hn])] at hfirst
          have : b0 = c := Option.some_inj.mp hfirst
          exact hbc (by rw [hb, this])
      · refine ih (upsert (normalizeStmt s0) b0 seen) hmem' ?_
        by_cases hkey : normalizeStmt s0 = n
        · rcases hdisj with hsome | ⟨hnone, hfirst⟩
          · rw [← hkey, hh] at hsome
            exact absurd hsome (by simp)
          · rw [firstLineIn, if_pos hkey] at hfirst
            have hbc' : b0 = c := Option.some_inj.mp hfirst
            left
            rw [lookupA_upsert, if_pos hkey, hbc']
        · rcases hdisj with hsome | ⟨hnone, hfirst⟩
          · left
            rw [lookupA_upsert, if_neg hkey]
            exact hsome
          · right
            refine ⟨by rw [lookupA_upsert, if_neg hkey]; exact hnone, ?_⟩
            rw [firstLineIn, if_neg hkey] at hfirst
            exact hfirst

/- ### C3 -/

/-- The parse of `c = a + b\nd = a + b`. -/
def dupShortTree : List Stmt :=
  [Stmt.assign [Expr.name "c" .store 1 none]
    (Expr.binOp (Expr.name "a" .load 1 none) (Expr.name "b" .load 1 none) 1 (some "a + b"))
    1 (some "c = a + b"),
   Stmt.assign [Expr.name "d" .store 2 none]
    (Expr.binOp (Expr.name "a" .load 2 none) (Expr.name "b" .load 2 none) 2 (some "a + b"))
    2 (some "d = a + b")]

/-- Counterexample to C3 as stated: on the program
`c = a + b` / `d = a + b` the analyzer reports *no* Code Duplication
finding at all (the statements are only 9 characters long, below the
`len(stmt) > 20` harvest threshold, and their full normalized texts
`"c = a + b"` and `"d = a + b"` differ anyway), not "exactly one
finding naming the two lines". -/
theorem short_duplicates_not_reported :
    lookupCat (analyze_code (fun _ => Except.ok dupShortTree) "c = a + b\nd = a + b")
      "Code Duplication" = some [] := by
  rfl

/-- The parse of the 28-character statement
`value_total = alpha1 + beta2` repeated on lines 1 and 2. -/
def dupLongTree : List Stmt :=
  [Stmt.assign [Expr.name "value_total" .store 1 none]
    (Expr.binOp (Expr.name "alpha1" .load 1 none) (Expr.name "beta2" .load 1 none)
      1 (some "alpha1 + beta2"))
    1 (some "value_total = alpha1 + beta2"),
   Stmt.assign [Expr.name "value_total" .store 2 none]
    (Expr.binOp (Expr.name "alpha1" .load 2 none) (Expr.name "beta2" .load 2 none)
      2 (some "alpha1 + beta2"))
    2 (some "value_total = alpha1 + beta2")]

/-- C3 (amended): a standalone statement (expression-statement,
assignment or augmented assignment) is harvested only when its stripped
source exceeds 20 characters, and any harvested statement whose
whitespace-normalized *full* source text (targets included) equals that
of the statement first seen with that normalized text, at a different
line, is reported as one pairwise `Similar code` finding against the
first-seen line; concretely the 28-character statement
`value_total = alpha1 + beta2` repeated on lines 1 and 2 yields exactly
the one finding `Similar code at lines 1 and 2`. -/
theorem duplicate_statements_reported :
    (∀ (t : List Stmt) (n s : String) (b c : Nat),
      normalizeStmt s = n → (s, b) ∈ dupCollectL (walk t) → b ≠ c →
      firstLineIn (dupCollectL (walk t)) n = some c →
      dupMsg c b ∈ findDuplicatedCode (walk t))
    ∧ lookupCat
        (analyze_code (fun _ => Except.ok dupLongTree)
          "value_total = alpha1 + beta2\nvalue_total = alpha1 + beta2")
        "Code Duplication"
      = some ["Similar code at lines 1 and 2"] := by
  constructor
  · intro t n s b c hn hmem hbc hfirst
    exact dupScan_mem hn hbc (dupCollectL (walk t)) [] hmem (Or.inr ⟨rfl, hfirst⟩)
  · rfl

/-- Witness for C3 (amended) at the concrete repeated long statement. -/
theorem duplicate_statements_reported_witness :
    dupMsg 1 2 ∈ findDuplicatedCode (walk dupLongTree) :=
  duplicate_statements_reported.1 dupLongTree
    (normalizeStmt "value_total = alpha1 + beta2") "value_total = alpha1 + beta2" 2 1
    rfl (by decide) (by decide) (by decide)

/- ### C4 -/

/-- A standalone call statement `fn(a1, a2)` with its rendered source. -/
def mkCallStmt (fn : String) (a1 a2 : Int) (ln : Nat) (sg : String) : Stmt :=
  Stmt.exprStmt
    (Expr.call (Expr.name fn .load ln none)
      [Expr.constant (.intVal a1) ln none, Expr.constant (.intVal a2) ln none]
      ln (some sg))
    ln (some sg)

/-- The parse of `extractTwoCode`: two distinct 21/22-character call
statements, each repeated twice. -/
def extractTwoTree : List Stmt :=
  [mkCallStmt "print" 12345 6789012 1 "print(12345, 6789012)",
   mkCallStmt "print" 12345 6789012 2 "print(12345, 6789012)",
   mkCallStmt "foo_bar" 123456 78901 3 "foo_bar(123456, 78901)",
   mkCallStmt "foo_bar" 123456 78901 4 "foo_bar(123456, 78901)"]

/-- A program with two distinct duplicated fragments, each longer than
20 characters and spanning one line. -/
def extractTwoCode : String :=
  "print(12345, 6789012)\nprint(12345, 6789012)\nfoo_bar(123456, 78901)\nfoo_bar(123456, 78901)"

/-- The text held by the loop variable `lines` after the *first*
iteration of the replacement loop of `extract_functions` on
`extractTwoCode` (a single string: both synthesized definitions are in
place and every occurrence of the first fragment — including the one
inside the first synthesized body — has been replaced). -/
def extractTwoMid : String :=
  "def extracted_function_1():\n    extracted_function_1()\n\nextracted_function_1()\nextracted_function_1()\ndef extracted_function_2():\n    foo_bar(123456, 78901)\n\nfoo_bar(123456, 78901)\nfoo_bar(123456, 78901)"

set_option maxRecDepth 10000 in
/-- C4: evaluation of `extract_functions` at a program with two
distinct duplicated fragments.  The second loop iteration computes
`'\n'.join(lines)` while `lines` is already a *string*, so Python joins
its characters: the pass returns every character of `extractTwoMid`
separated by a newline (mangled text in which the second fragment is
never replaced by a call to `extracted_function_2`), not the
transformed source the claim describes — while both change
descriptions are still emitted. -/
theorem extract_two_fragments_mangles_output :
    (extract_functions extractTwoCode extractTwoTree).1
      = pyJoin "\n" (extractTwoMid.data.map (fun c => String.mk [c]))
    ∧ (extract_functions extractTwoCode extractTwoTree).2
      = ["Extracted repeated code into function 'extracted_function_1'",
         "Extracted repeated code into function 'extracted_function_2'"] :=
  ⟨rfl, rfl⟩

/- ### C7 lemmas -/

/-- Is the string a nonempty all-word-character identifier (as every
identifier produced by the real parser is)? -/
def isIdentB (s : String) : Bool :=
  !(s == "") && s.data.all isWordChar

/-- Tree wellformedness at one node for C7: the identifiers the
name-usage index reads off this node are well-formed. -/
def nodeIdentOk : Node → Bool
  | .expr (.name id _ _ _) => isIdentB id
  | .expr (.attribute (.name bid _ _ _) _ _ _ _) => isIdentB bid
  | _ => true

/-- No load-context occurrence of the name `os` at this node: neither a
`Name os` read nor an `os.…` attribute access. -/
def osLoadFree : Node → Bool
  | .expr (.name id .load _ _) => !(id == "os")
  | .expr (.attribute (.name bid _ _ _) _ .load _ _) => !(bid == "os")
  | _ => true

/-- A load-context use of `os.path` at this node. -/
def isOsPathUse : Node → Bool
  | .expr (.attribute (.name bid _ _ _) attr .load _ _) => bid == "os" && attr == "path"
  | _ => false

/-- `pyStartsWith` unfolded to a list prefix. -/
theorem pyStartsWith_eq_true {s pre : String}
    (h : pyStartsWith s pre = true) : pre.data <+: s.data := by
  unfold pyStartsWith at h
  exact List.isPrefixOf_iff_prefix.mp h

/-- `"os"` never starts with `u ++ "."` (the prefix contains a dot,
`"os"` does not). -/
theorem os_not_startsWith_dotted (u : String) :
    pyStartsWith "os" (u ++ ".") = false := by
  cases h : pyStartsWith "os" (u ++ ".")
  · rfl
  · exfalso
    have hpre := pyStartsWith_eq_true h
    have hdot : '.' ∈ (u ++ ".").data := by
      rw [String.data_append]
      simp
    exact absurd (hpre.subset hdot) (by decide)

/-- A dot-free string never starts with `"os."`. -/
theorem bare_not_startsWith_osdot {u : String}
    (hdot : '.' ∉ u.data) : pyStartsWith u "os." = false := by
  cases h : pyStartsWith u "os."
  · rfl
  · exact absurd ((pyStartsWith_eq_true h).subset (by decide)) hdot

/-- A composite `bid ++ "." ++ attr` with a well-formed base other than
`"os"` never starts with `"os."`. -/
theorem composite_not_startsWith_osdot {bid attr : String}
    (hident : isIdentB bid = true) (hos : bid ≠ "os") :
    pyStartsWith (bid ++ "." ++ attr) "os." = false := by
  have hne : bid.data ≠ [] := by
    intro hc
    have : bid = "" := String.ext hc
    subst this
    simp [isIdentB] at hident
  have hword : ∀ c ∈ bid.data, isWordChar c = true := by
    intro c hc
    have hand := (Bool.and_eq_true _ _).mp hident
    exact List.all_eq_true.mp hand.2 c hc
  cases h : pyStartsWith (bid ++ "." ++ attr) "os."
  · rfl
  · exfalso
    have h' := pyStartsWith_eq_true h
    have hdata : (bid ++ "." ++ attr).data = bid.data ++ '.' :: attr.data := by
      rw [String.data_append, String.data_append]
      simp
    rw [hdata] at h'
    match hb : bid.data with
    | [] => exact hne hb
    | [b1] =>
        rw [hb] at h'
        have h1 := List.cons_prefix_cons.mp h'
        have h2 := List.cons_prefix_cons.mp h1.2
        exact absurd h2.1 (by decide)
    | [b1, b2] =>
        rw [hb] at h'
        have h1 := List.cons_prefix_cons.mp h'
        have h2 := List.cons_prefix_cons.mp h1.2
        apply hos
        apply String.ext
        rw [hb, ← h1.1, ← h2.1]
    | b1 :: b2 :: b3 :: brest =>
        rw [hb] at h'
        have h1 := List.cons_prefix_cons.mp h'
        have h2 := List.cons_prefix_cons.mp h1.2
        have h3 := List.cons_prefix_cons.mp h2.2
        have hw : isWordChar b3 = true := by
          refine hword b3 ?_
          rw [hb]
          simp
        rw [← h3.1] at hw
        exact absurd hw (by decide)

/-- A well-formed identifier contains no dot. -/
theorem ident_no_dot {u : String} (h : isIdentB u = true) : '.' ∉ u.data := by
  intro hc
  have hand := (Bool.and_eq_true _ _).mp h
  have := List.all_eq_true.mp hand.2 '.' hc
  exact absurd this (by decide)

/-- The per-element usedness test of `_find_unused_imports` for the
`os` import, written out. -/
def osUseTest (u : String) : Bool :=
  ("os" == u) || pyStartsWith "os" (u ++ ".") ||
    (pySplitChar '.' "os").any (fun p => pyStartsWith u (p ++ "."))

/-- A name contributed by an os-load-free well-formed node never passes
the `os` usedness test. -/
theorem osUseTest_contrib_false {x : Node} {u : String}
    (hno : osLoadFree x = true) (hwf : nodeIdentOk x = true)
    (hu : u ∈ usedContrib x) : osUseTest u = false := by
  have hparts : pySplitChar '.' "os" = ["os"] := rfl
  cases x with
  | mod b => simp [usedContrib] at hu
  | stmt s => simp [usedContrib] at hu
  | expr e =>
    cases e with
    | name id ctx ln sg =>
      cases ctx with
      | store => simp [usedContrib] at hu
      | del => simp [usedContrib] at hu
      | load =>
        have hu' : u = id := by
          simpa [usedContrib] using hu
        subst hu'
        have hne : u ≠ "os" := by
          intro hc
          subst hc
          simp [osLoadFree] at hno
        have hident : isIdentB u = true := hwf
        unfold osUseTest
        rw [hparts]
        have h1 : ("os" == u) = false := by
          cases hb : ("os" == u)
          · rfl
          · exact absurd (eq_of_beq hb).symm hne
        rw [h1, os_not_startsWith_dotted]
        simp [bare_not_startsWith_osdot (ident_no_dot hident)]
    | «attribute» v attr ctx ln sg =>
      cases ctx with
      | store => cases v <;> simp [usedContrib] at hu
      | del => cases v <;> simp [usedContrib] at hu
      | load =>
        cases v with
        | name bid bctx bln bsg =>
          have hbne : bid ≠ "os" := by
            intro hc
            subst hc
            simp [osLoadFree] at hno
          have hident : isIdentB bid = true := hwf
          have hu' : u = bid ++ "." ++ attr ∨ u = bid := by
            simpa [usedContrib] using hu
          unfold osUseTest
          rw [hparts]
          rcases hu' with hu' | hu'
          · rw [hu']
            have h1 : ("os" == bid ++ "." ++ attr) = false := by
              cases hb : ("os" == bid ++ "." ++ attr)
              · rfl
              · exfalso
                have heq := eq_of_beq hb
                have hdot : '.' ∈ "os".data := by
                  rw [heq, String.data_append]
                  simp
                exact absurd hdot (by decide)
            rw [h1, os_not_startsWith_dotted]
            simp [composite_not_startsWith_osdot hident hbne]
          · rw [hu']
            have h1 : ("os" == bid) = false := by
              cases hb : ("os" == bid)
              · rfl
              · exact absurd (eq_of_beq hb).symm hbne
            rw [h1, os_not_startsWith_dotted]
            simp [bare_not_startsWith_osdot (ident_no_dot hident)]
        | «attribute» v2 a2 c2 l2 s2 => simp [usedContrib] at hu
        | constant c2 l2 s2 => simp [usedContrib] at hu
        | boolOp vs l2 s2 => simp [usedContrib] at hu
        | binOp e1 e2 l2 s2 => simp [usedContrib] at hu
        | call f args l2 s2 => simp [usedContrib] at hu
        | listLit es l2 s2 => simp [usedContrib] at hu
        | dictLit l2 s2 => simp [usedContrib] at hu
    | constant c2 l2 s2 => simp [usedContrib] at hu
    | boolOp vs l2 s2 => simp [usedContrib] at hu
    | binOp e1 e2 l2 s2 => simp [usedContrib] at hu
    | call f args l2 s2 => simp [usedContrib] at hu
    | listLit es l2 s2 => simp [usedContrib] at hu
    | dictLit l2 s2 => simp [usedContrib] at hu


/-- If no node of the list reads `os` in load context (and identifiers
are well-formed), the usedness test of `_find_unused_imports` rejects
the import `os`. -/
theorem importUsed_os_false {l : List Node}
    (hno : ∀ n ∈ l, osLoadFree n = true)
    (hwf : ∀ n ∈ l, nodeIdentOk n = true) :
    importUsed (usedNamesL l) "os" = false := by
  unfold importUsed
  refine List.any_eq_false.mpr ?_
  intro u hu
  rw [Bool.not_eq_true]
  show osUseTest u = false
  induction l with
  | nil => simp [usedNamesL] at hu
  | cons x rest ih =>
    have hu' : u ∈ usedContrib x ++ usedNamesL rest := hu
    rcases List.mem_append.mp hu' with hl | hr
    · exact osUseTest_contrib_false (hno x (List.mem_cons_self _ _))
        (hwf x (List.mem_cons_self _ _)) hl
    · exact ih (fun y hy => hno y (List.mem_cons_of_mem _ hy))
        (fun y hy => hwf y (List.mem_cons_of_mem _ hy)) hr

/-- An `os.path` load contributes `"os"` to the usage index. -/
theorem os_mem_usedContrib {n : Node} (hp : isOsPathUse n = true) :
    "os" ∈ usedContrib n := by
  cases n with
  | mod b => simp [isOsPathUse] at hp
  | stmt s => simp [isOsPathUse] at hp
  | expr e =>
    cases e with
    | name id ctx ln sg => simp [isOsPathUse] at hp
    | «attribute» v attr ctx ln sg =>
      cases v with
      | name bid bctx bln bsg =>
        cases ctx with
        | store => simp [isOsPathUse] at hp
        | del => simp [isOsPathUse] at hp
        | load =>
          simp only [isOsPathUse] at hp
          have hand := (Bool.and_eq_true _ _).mp hp
          have hbid : bid = "os" := eq_of_beq hand.1
          subst hbid
          simp [usedContrib]
      | «attribute» v2 a2 c2 l2 s2 => simp [isOsPathUse] at hp
      | constant c2 l2 s2 => simp [isOsPathUse] at hp
      | boolOp vs l2 s2 => simp [isOsPathUse] at hp
      | binOp e1 e2 l2 s2 => simp [isOsPathUse] at hp
      | call f args l2 s2 => simp [isOsPathUse] at hp
      | listLit es l2 s2 => simp [isOsPathUse] at hp
      | dictLit l2 s2 => simp [isOsPathUse] at hp
    | constant c2 l2 s2 => simp [isOsPathUse] at hp
    | boolOp vs l2 s2 => simp [isOsPathUse] at hp
    | binOp e1 e2 l2 s2 => simp [isOsPathUse] at hp
    | call f args l2 s2 => simp [isOsPathUse] at hp
    | listLit es l2 s2 => simp [isOsPathUse] at hp
    | dictLit l2 s2 => simp [isOsPathUse] at hp

/-- A node with an `os.path` load puts `"os"` into the usage index. -/
theorem os_mem_usedNamesL {l : List Node}
    (h : ∃ n ∈ l, isOsPathUse n = true) : "os" ∈ usedNamesL l := by
  obtain ⟨n, hn, hp⟩ := h
  induction l with
  | nil => simp at hn
  | cons x rest ih =>
    show "os" ∈ usedContrib x ++ usedNamesL rest
    rcases List.mem_cons.mp hn with heq | hmem
    · subst heq
      exact List.mem_append_left _ (os_mem_usedContrib hp)
    · exact List.mem_append_right _ (ih hmem)

/-- The unused-import message is injective in the import name. -/
theorem importMsg_inj {a b : String}
    (h : "Import '" ++ a ++ "' is not used" = "Import '" ++ b ++ "' is not used") :
    a = b := by
  have hd := congrArg String.data h
  rw [String.data_append, String.data_append, String.data_append, String.data_append] at hd
  exact String.ext (List.append_cancel_left (List.append_cancel_right hd))

/- ### C7 -/

/-- C7: (i) for a syntactically valid input the `Unused Imports`
category holds `findUnusedImports` of the walk; (ii) a program
that imports `os` with no load-context occurrence of the name `os`
(identifiers being well-formed) gets the finding `Import 'os' is not
used`; (iii) a program that imports `os` and uses `os.path` in load
context does not get that finding. -/
theorem unused_import_os_detection :
    (∀ (parse : String → Except PySyntaxError (List Stmt)) (code : String)
      (t : List Stmt), parse code = Except.ok t →
      lookupCat (analyze_code parse code) "Unused Imports"
        = some (findUnusedImports (getImportsL (walk t)) (usedNamesL (walk t))))
    ∧ (∀ (t : List Stmt),
      "os" ∈ getImportsL (walk t) →
      (∀ n ∈ walk t, osLoadFree n = true) →
      (∀ n ∈ walk t, nodeIdentOk n = true) →
      "Import 'os' is not used"
        ∈ findUnusedImports (getImportsL (walk t)) (usedNamesL (walk t)))
    ∧ (∀ (t : List Stmt),
      "os" ∈ getImportsL (walk t) →
      (∃ n ∈ walk t, isOsPathUse n = true) →
      "Import 'os' is not used"
        ∉ findUnusedImports (getImportsL (walk t)) (usedNamesL (walk t))) := by
  refine ⟨?_, ?_, ?_⟩
  · intro parse code t h
    simp [analyze_code, h, lookupCat, findDuplicatedCode]
  · intro t himp hno hwf
    refine List.mem_filterMap.mpr ⟨"os", himp, ?_⟩
    rw [importUsed_os_false hno hwf]
    rfl
  · intro t himp hex h
    obtain ⟨imp, hmem, heq⟩ := List.mem_filterMap.mp h
    cases hcond : importUsed (usedNamesL (walk t)) imp
    · rw [hcond] at heq
      simp only [Bool.false_eq_true, if_false, Option.some_inj] at heq
      have himp' : imp = "os" := importMsg_inj heq
      subst himp'
      have hused : importUsed (usedNamesL (walk t)) "os" = true := by
        unfold importUsed
        refine List.any_eq_true.mpr ⟨"os", os_mem_usedNamesL hex, ?_⟩
        simp
      rw [hused] at hcond
      exact Bool.noConfusion hcond
    · rw [hcond] at heq
      simp at heq

/-- The parse of `import os` with no other statement. -/
def importOsUnusedTree : List Stmt := [Stmt.importStmt [("os", none)] 1]

/-- The parse of `import os` followed by the expression statement
`os.path`. -/
def importOsUsedTree : List Stmt :=
  [Stmt.importStmt [("os", none)] 1,
   Stmt.exprStmt (Expr.attribute (Expr.name "os" .load 2 none) "path" .load 2 (some "os.path"))
     2 (some "os.path")]

/-- Witness for C7 at the two concrete programs. -/
theorem unused_import_os_detection_witness :
    "Import 'os' is not used"
      ∈ findUnusedImports (getImportsL (walk importOsUnusedTree))
          (usedNamesL (walk importOsUnusedTree))
    ∧ "Import 'os' is not used"
      ∉ findUnusedImports (getImportsL (walk importOsUsedTree))
          (usedNamesL (walk importOsUsedTree)) :=
  ⟨unused_import_os_detection.2.1 importOsUnusedTree (by decide) (by decide) (by decide),
   unused_import_os_detection.2.2 importOsUsedTree (by decide) (by decide)⟩

/- ### C6 lemmas -/

/-- The modelled differ maps equal inputs to all-context lines. -/
theorem ndiff_self : ∀ l : List String, ndiff l l = l.map (fun s => "  " ++ s) := by
  intro l
  induction l with
  | nil => rfl
  | cons a la ih => simp [ndiff, ih]

/-- `divOf` on a deletion-marked line. -/
theorem divOf_removed (l : String) :
    divOf ("- " ++ l) = some ("<div class=\"diff-removed\">" ++ pyEscape l ++ "</div>") := by
  have hdata : ("- " ++ l).data = '-' :: ' ' :: l.data := by
    rw [String.data_append]
    rfl
  have h1 : pyStartsWith ("- " ++ l) "+ " = false := by
    unfold pyStartsWith
    rw [hdata]
    simp [List.isPrefixOf]
  have h2 : pyStartsWith ("- " ++ l) "- " = true := by
    unfold pyStartsWith
    rw [hdata]
    simp [List.isPrefixOf]
  have h3 : pyDrop2 ("- " ++ l) = l := by
    unfold pyDrop2
    rw [hdata]
    exact String.ext rfl
  unfold divOf
  simp [h1, h2, h3]

/-- `divOf` on an insertion-marked line. -/
theorem divOf_added (l : String) :
    divOf ("+ " ++ l) = some ("<div class=\"diff-added\">" ++ pyEscape l ++ "</div>") := by
  have hdata : ("+ " ++ l).data = '+' :: ' ' :: l.data := by
    rw [String.data_append]
    rfl
  have h1 : pyStartsWith ("+ " ++ l) "+ " = true := by
    unfold pyStartsWith
    rw [hdata]
    simp [List.isPrefixOf]
  have h3 : pyDrop2 ("+ " ++ l) = l := by
    unfold pyDrop2
    rw [hdata]
    exact String.ext rfl
  unfold divOf
  simp [h1, h3]

/-- `divOf` drops a hint-marked line. -/
theorem divOf_hint (l : String) : divOf ("? " ++ l) = none := by
  have hdata : ("? " ++ l).data = '?' :: ' ' :: l.data := by
    rw [String.data_append]
    rfl
  have h1 : pyStartsWith ("? " ++ l) "+ " = false := by
    unfold pyStartsWith
    rw [hdata]
    simp [List.isPrefixOf]
  have h2 : pyStartsWith ("? " ++ l) "- " = false := by
    unfold pyStartsWith
    rw [hdata]
    simp [List.isPrefixOf]
  have h3 : pyStartsWith ("? " ++ l) "? " = true := by
    unfold pyStartsWith
    rw [hdata]
    simp [List.isPrefixOf]
  unfold divOf
  simp [h1, h2, h3]

/-- `divOf` on a context line. -/
theorem divOf_unchanged (l : String) :
    divOf ("  " ++ l) = some ("<div class=\"diff-unchanged\">" ++ pyEscape l ++ "</div>") := by
  have hdata : ("  " ++ l).data = ' ' :: ' ' :: l.data := by
    rw [String.data_append]
    rfl
  have h1 : pyStartsWith ("  " ++ l) "+ " = false := by
    unfold pyStartsWith
    rw [hdata]
    simp [List.isPrefixOf]
  have h2 : pyStartsWith ("  " ++ l) "- " = false := by
    unfold pyStartsWith
    rw [hdata]
    simp [List.isPrefixOf]
  have h3 : pyStartsWith ("  " ++ l) "? " = false := by
    unfold pyStartsWith
    rw [hdata]
    simp [List.isPrefixOf]
  have h4 : pyStartsWith ("  " ++ l) "  " = true := by
    unfold pyStartsWith
    rw [hdata]
    simp [List.isPrefixOf]
  have h5 : pyDrop2 ("  " ++ l) = l := by
    unfold pyDrop2
    rw [hdata]
    exact String.ext rfl
  unfold divOf
  simp [h1, h2, h3, h4, h5]

/- ### C6 -/

/-- C6: `renderDiff(A, A)` yields the all-`unchanged` classified
sequence with one entry per line of `A` (each entry HTML-escaped), and
in general the renderer emits the fixed style header, then one
classified line per diff line — deletion-marked lines as
`diff-removed`, insertion-marked lines as `diff-added`, hint-marked
lines dropped, context lines as `diff-unchanged`, each with escaped
content — and a closing tag, joined by newlines. -/
theorem render_diff_classification :
    (∀ A : String,
      ndiff (pySplitlines A) (pySplitlines A)
          = (pySplitlines A).map (fun l => "  " ++ l)
      ∧ generate_diff A A
          = pyJoin "\n"
              (diffStyleHeader
                ++ (pySplitlines A).map (fun l =>
                      "<div class=\"diff-unchanged\">" ++ pyEscape l ++ "</div>")
                ++ ["</div>"])
      ∧ ((pySplitlines A).map (fun l =>
            "<div class=\"diff-unchanged\">" ++ pyEscape l ++ "</div>")).length
          = (pySplitlines A).length)
    ∧ (∀ ls : List String,
      highlight_diff ls
        = pyJoin "\n" (diffStyleHeader ++ ls.filterMap divOf ++ ["</div>"]))
    ∧ (∀ l : String,
      divOf ("- " ++ l) = some ("<div class=\"diff-removed\">" ++ pyEscape l ++ "</div>")
      ∧ divOf ("+ " ++ l) = some ("<div class=\"diff-added\">" ++ pyEscape l ++ "</div>")
      ∧ divOf ("  " ++ l) = some ("<div class=\"diff-unchanged\">" ++ pyEscape l ++ "</div>")
      ∧ divOf ("? " ++ l) = none) := by
  refine ⟨?_, fun ls => rfl, fun l => ⟨divOf_removed l, divOf_added l, divOf_unchanged l, divOf_hint l⟩⟩
  intro A
  refine ⟨ndiff_self _, ?_, by simp⟩
  unfold generate_diff highlight_diff
  rw [ndiff_self]
  congr 2
  rw [List.filterMap_map]
  have hfun : (divOf ∘ fun l => "  " ++ l)
      = some ∘ (fun l => "<div class=\"diff-unchanged\">" ++ pyEscape l ++ "</div>") := by
    funext x
    exact divOf_unchanged x
  rw [hfun, List.filterMap_eq_map]

/- ### C5: word-run machinery

`re.sub(r'\b' + re.escape(old) + r'\b', new, line)` for an all-word
`old` replaces exactly the maximal word-character runs equal to `old`
(`renameSubL`).  The lemmas below establish that `runsplit` and
`List.flatten` are mutually inverse on well-formed run lists, so the
runs of a substituted line are the mapped runs of the original line. -/

/-- The word-character class of a run (by its first character). -/
def runFlag : List Char → Bool
  | [] => false
  | c :: _ => isWordChar c

/-- A well-formed run: nonempty with all characters in one class. -/
def uniformRun (r : List Char) : Prop :=
  r ≠ [] ∧ ∀ c ∈ r, isWordChar c = runFlag r

/-- A well-formed run decomposition: uniform runs with alternating
classes. -/
def RunsWf (rs : List (List Char)) : Prop :=
  (∀ r ∈ rs, uniformRun r) ∧ rs.Chain' (fun a b => runFlag a ≠ runFlag b)

/-- `rcons` prepends one character to the flattening. -/
theorem rcons_flatten (c : Char) (rs : List (List Char)) :
    (rcons c rs).flatten = c :: rs.flatten := by
  match rs with
  | [] => rfl
  | [] :: rs' => simp [rcons]
  | (d :: r) :: rs' =>
      by_cases h : isWordChar c = isWordChar d
      · simp [rcons, h]
      · have h' : (isWordChar c == isWordChar d) = false := by
          simp [h]
        simp [rcons, h']

/-- `runsplit` loses no characters. -/
theorem runsplit_flatten : ∀ s : List Char, (runsplit s).flatten = s := by
  intro s
  induction s with
  | nil => rfl
  | cons c rest ih =>
    show (rcons c (runsplit rest)).flatten = c :: rest
    rw [rcons_flatten, ih]

/-- `rcons` preserves wellformedness. -/
theorem rcons_wf {c : Char} {rs : List (List Char)} (h : RunsWf rs) :
    RunsWf (rcons c rs) := by
  match rs with
  | [] =>
    refine ⟨?_, by simp [rcons]⟩
    intro r hr
    simp only [rcons, List.mem_singleton] at hr
    subst hr
    exact ⟨by simp, by simp [runFlag]⟩
  | [] :: rs' =>
    exact absurd (h.1 [] (List.mem_cons_self _ _)).1 (by simp)
  | (d :: r) :: rs' =>
    obtain ⟨huni, hchain⟩ := h
    by_cases hw : isWordChar c = isWordChar d
    · have hw' : (isWordChar c == isWordChar d) = true := by simp [hw]
      have hstep : rcons c ((d :: r) :: rs') = (c :: d :: r) :: rs' := by
        simp [rcons, hw']
      rw [hstep]
      constructor
      · intro x hx
        rcases List.mem_cons.mp hx with hx | hx
        · subst hx
          refine ⟨by simp, ?_⟩
          intro e he
          have hu := huni (d :: r) (List.mem_cons_self _ _)
          rcases List.mem_cons.mp he with he | he
          · subst he; rfl
          · have := hu.2 e he
            rw [this]
            show runFlag (d :: r) = runFlag (c :: d :: r)
            show isWordChar d = isWordChar c
            exact hw.symm
        · exact huni x (List.mem_cons_of_mem _ hx)
      · have hflag : runFlag (c :: d :: r) = runFlag (d :: r) := hw
        cases rs' with
        | nil => simp
        | cons y ys =>
          rw [List.chain'_cons] at hchain ⊢
          refine ⟨?_, hchain.2⟩
          rw [hflag]
          exact hchain.1
    · have hw' : (isWordChar c == isWordChar d) = false := by simp [hw]
      have hstep : rcons c ((d :: r) :: rs') = [c] :: (d :: r) :: rs' := by
        simp [rcons, hw']
      rw [hstep]
      constructor
      · intro x hx
        rcases List.mem_cons.mp hx with hx | hx
        · subst hx
          exact ⟨by simp, by simp [runFlag]⟩
        · exact huni x hx
      · rw [List.chain'_cons]
        exact ⟨hw, hchain⟩

/-- The decomposition of any character list is well-formed. -/
theorem runsplit_wf : ∀ s : List Char, RunsWf (runsplit s) := by
  intro s
  induction s with
  | nil =>
    show RunsWf []
    exact ⟨by simp, List.chain'_nil⟩
  | cons c rest ih => exact rcons_wf ih

/-- A uniform run followed by text of the other class splits off
cleanly. -/
theorem runsplit_append_run :
    ∀ (r tail : List Char), uniformRun r →
      (∀ d, tail.head? = some d → isWordChar d ≠ runFlag r) →
      runsplit (r ++ tail) = r :: runsplit tail := by
  intro r
  induction r with
  | nil => intro tail h _; exact absurd h.1 (by simp)
  | cons c r' ihr =>
    intro tail huni hhead
    cases r' with
    | nil =>
      show rcons c (runsplit tail) = [c] :: runsplit tail
      match htail : runsplit tail with
      | [] => rfl
      | [] :: rs' =>
        exact absurd ((runsplit_wf tail).1 [] (by rw [htail]; exact List.mem_cons_self _ _)).1
          (by simp)
      | (d :: rr) :: rs' =>
        have hflat : ((d :: rr) :: rs').flatten = tail := by
          rw [← htail]; exact runsplit_flatten tail
        have hhd : tail.head? = some d := by
          rw [← hflat]; rfl
        have hne := hhead d hhd
        have : runFlag [c] = isWordChar c := rfl
        have hcw : isWordChar d ≠ isWordChar c := by
          intro hc
          exact hne (by rw [hc]; rfl)
        have hw' : (isWordChar c == isWordChar d) = false := by
          simp only [beq_eq_false_iff_ne]
          exact fun hc => hcw hc.symm
        simp [rcons, hw']
    | cons c2 r'' =>
      have huni' : uniformRun (c2 :: r'') := by
        refine ⟨by simp, ?_⟩
        intro e he
        have h1 := huni.2 e (List.mem_cons_of_mem _ he)
        have h2 : isWordChar c2 = runFlag (c :: c2 :: r'') :=
          huni.2 c2 (by simp)
        rw [h1]
        show runFlag (c :: c2 :: r'') = runFlag (c2 :: r'')
        rw [show runFlag (c2 :: r'') = isWordChar c2 from rfl, h2]
    -- classes agree inside the run, so rcons merges
      have hhead' : ∀ d, tail.head? = some d → isWordChar d ≠ runFlag (c2 :: r'') := by
        intro d hd
        have h2 : isWordChar c2 = runFlag (c :: c2 :: r'') := huni.2 c2 (by simp)
        have := hhead d hd
        show isWordChar d ≠ isWordChar c2
        rw [h2]
        exact this
      have hrec := ihr tail huni' hhead'
      show rcons c (runsplit ((c2 :: r'') ++ tail)) = (c :: c2 :: r'') :: runsplit tail
      rw [hrec]
      have hcc2 : isWordChar c = isWordChar c2 := by
        have h1 : isWordChar c = runFlag (c :: c2 :: r'') := huni.2 c (by simp)
        have h2 : isWordChar c2 = runFlag (c :: c2 :: r'') := huni.2 c2 (by simp)
        rw [h1, h2]
      have hw' : (isWordChar c == isWordChar c2) = true := by simp [hcc2]
      simp [rcons, hw']

/-- On well-formed run lists, `runsplit` inverts `flatten`. -/
theorem runsplit_flatten_of_wf :
    ∀ rs : List (List Char), RunsWf rs → runsplit rs.flatten = rs := by
  intro rs
  induction rs with
  | nil => intro _; rfl
  | cons r rs' ih =>
    intro hwf
    obtain ⟨huni, hchain⟩ := hwf
    have hr := huni r (List.mem_cons_self _ _)
    show runsplit (r ++ rs'.flatten) = r :: rs'
    have hrest : RunsWf rs' := by
      refine ⟨fun x hx => huni x (List.mem_cons_of_mem _ hx), ?_⟩
      exact (List.chain'_cons'.mp hchain).2
    rw [runsplit_append_run r rs'.flatten hr ?_, ih hrest]
    intro d hd
    cases rs' with
    | nil => simp at hd
    | cons r2 rs'' =>
      have hr2 := huni r2 (by simp)
      obtain ⟨hne2, hu2⟩ := hr2
      match hr2d : r2 with
      | [] => exact absurd rfl hne2
      | e :: r2' =>
        have hd2 : e = d := by
          have hfl : ((e :: r2') :: rs'').flatten = e :: (r2' ++ rs''.flatten) := by simp
          rw [hfl] at hd
          exact Option.some_inj.mp hd
        rw [← hd2]
        have hflagne := (List.chain'_cons.mp hchain).1
        show isWordChar e ≠ runFlag r
        have he : isWordChar e = runFlag (e :: r2') := rfl
        rw [he]
        exact fun hc => hflagne hc.symm

/- ### C5: properties of the rename plan -/

/-- Python keywords (including the soft keywords `match`, `case`,
`type`): identifiers can never collide with the hard keywords, and none
of the renamer's suggested names is one of these. -/
def pyKeywords : List String :=
  ["False", "None", "True", "and", "as", "assert", "async", "await", "break",
   "class", "continue", "def", "del", "elif", "else", "except", "finally",
   "for", "from", "global", "if", "import", "in", "is", "lambda", "nonlocal",
   "not", "or", "pass", "raise", "return", "try", "while", "with", "yield",
   "match", "case", "type"]

/-- Is an assignment target either not a `Name`, or a well-formed
non-keyword identifier? -/
def targetOkE : Expr → Bool
  | .name id _ _ _ => isIdentB id && !(pyKeywords.contains id)
  | _ => true

/-- Tree wellformedness at one node for C5: every `Name` assignment
target is a well-formed non-keyword identifier (guaranteed by the real
parser). -/
def targetNamesOk : Node → Bool
  | .stmt (.assign tgts _ _ _) => tgts.all targetOkE
  | _ => true

/-- Membership after a `dict` upsert. -/
theorem mem_upsert {α : Type} {k : String} {v : α} :
    ∀ {l : List (String × α)} {q : String × α},
      q ∈ upsert k v l → q = (k, v) ∨ q ∈ l := by
  intro l
  induction l with
  | nil =>
    intro q hq
    simp only [upsert, List.mem_singleton] at hq
    exact Or.inl hq
  | cons p rest ih =>
    intro q hq
    obtain ⟨k', v'⟩ := p
    by_cases h : k' = k
    · rw [upsert, if_pos h] at hq
      rcases List.mem_cons.mp hq with hq | hq
      · exact Or.inl hq
      · exact Or.inr (List.mem_cons_of_mem _ hq)
    · rw [upsert, if_neg h] at hq
      rcases List.mem_cons.mp hq with hq | hq
      · exact Or.inr (by rw [hq]; exact List.mem_cons_self _ _)
      · rcases ih hq with hq' | hq'
        · exact Or.inl hq'
        · exact Or.inr (List.mem_cons_of_mem _ hq')

/-- A well-formed identifier is a single word run. -/
theorem ident_run {s : String} (h : isIdentB s = true) :
    uniformRun s.data ∧ runFlag s.data = true := by
  have hand := (Bool.and_eq_true _ _).mp h
  have hne : s.data ≠ [] := by
    intro hc
    have : s = "" := String.ext hc
    subst this
    simp at hand
  have hall : ∀ c ∈ s.data, isWordChar c = true := List.all_eq_true.mp hand.2
  match hd : s.data with
  | [] => exact absurd hd hne
  | c :: cs =>
    have hc : isWordChar c = true := hall c (by rw [hd]; simp)
    refine ⟨⟨by simp, ?_⟩, ?_⟩
    · intro e he
      have hew := hall e (by rw [hd]; exact he)
      rw [hew]
      exact hc.symm
    · exact hc

/-- Different strings have different data. -/
theorem data_ne_of_ne {a b : String} (h : a ≠ b) : a.data ≠ b.data :=
  fun hc => h (String.ext hc)

/-- The length of the `_value`-suffixed name. -/
theorem suffix_length (name : String) :
    (name ++ "_value").length = name.length + 6 := by
  rw [String.length_append]
  rfl

/-- A nonempty identifier has positive length. -/
theorem ident_length_pos {s : String} (h : isIdentB s = true) : 0 < s.length := by
  have hand := (Bool.and_eq_true _ _).mp h
  have hne : s.data ≠ [] := by
    intro hc
    have : s = "" := String.ext hc
    subst this
    simp at hand
  have : s.data.length ≠ 0 := fun hc => hne (List.eq_nil_of_length_eq_zero hc)
  show 0 < s.data.length
  omega

/-- The suggested replacement for a poor well-formed identifier is
itself a well-formed identifier, is not poor, and is not a keyword. -/
theorem suggest_props {name : String} {value : Expr}
    (hident : isIdentB name = true) :
    isPoorName (suggestBetterName name value) = false
    ∧ isIdentB (suggestBetterName name value) = true
    ∧ suggestBetterName name value ∉ pyKeywords := by
  unfold suggestBetterName
  by_cases h1 : name ∈ ["temp", "tmp"]
  · rw [if_pos h1]; decide
  · rw [if_neg h1]
    by_cases h2 : name.length = 1
    · rw [if_pos h2]
      match value with
      | .constant (.intVal n) l s =>
          exact (by decide :
            isPoorName "number_value" = false ∧ isIdentB "number_value" = true ∧ "number_value" ∉ pyKeywords)
      | .constant (.strVal st) l s =>
          exact (by decide :
            isPoorName "string_value" = false ∧ isIdentB "string_value" = true ∧ "string_value" ∉ pyKeywords)
      | .constant (.boolVal b) l s =>
          exact (by decide :
            isPoorName "value" = false ∧ isIdentB "value" = true ∧ "value" ∉ pyKeywords)
      | .constant .noneVal l s =>
          exact (by decide :
            isPoorName "value" = false ∧ isIdentB "value" = true ∧ "value" ∉ pyKeywords)
      | .listLit es l s =>
          exact (by decide :
            isPoorName "items_list" = false ∧ isIdentB "items_list" = true ∧ "items_list" ∉ pyKeywords)
      | .dictLit l s =>
          exact (by decide :
            isPoorName "data_map" = false ∧ isIdentB "data_map" = true ∧ "data_map" ∉ pyKeywords)
      | .name i c l s =>
          exact (by decide :
            isPoorName "value" = false ∧ isIdentB "value" = true ∧ "value" ∉ pyKeywords)
      | .attribute v a c l s =>
          exact (by decide :
            isPoorName "value" = false ∧ isIdentB "value" = true ∧ "value" ∉ pyKeywords)
      | .boolOp vs l s =>
          exact (by decide :
            isPoorName "value" = false ∧ isIdentB "value" = true ∧ "value" ∉ pyKeywords)
      | .binOp a b l s =>
          exact (by decide :
            isPoorName "value" = false ∧ isIdentB "value" = true ∧ "value" ∉ pyKeywords)
      | .call f args l s =>
          exact (by decide :
            isPoorName "value" = false ∧ isIdentB "value" = true ∧ "value" ∉ pyKeywords)
    · rw [if_neg h2]
      by_cases h3 : name = "var"
      · rw [if_pos h3]; decide
      · rw [if_neg h3]
        by_cases h4 : name = "val"
        · rw [if_pos h4]; decide
        · rw [if_neg h4]
          by_cases h5 : name = "arr"
          · rw [if_pos h5]; decide
          · rw [if_neg h5]
            by_cases h6 : name = "obj"
            · rw [if_pos h6]; decide
            · rw [if_neg h6]
              by_cases h7 : name = "num"
              · rw [if_pos h7]; decide
              · rw [if_neg h7]
                by_cases h8 : name = "str"
                · rw [if_pos h8]; decide
                · rw [if_neg h8]
                  by_cases h9 : name = "dict"
                  · rw [if_pos h9]; decide
                  · rw [if_neg h9]
                    by_cases h10 : name = "lst"
                    · rw [if_pos h10]; decide
                    · rw [if_neg h10]
                      -- the default `name ++ "_value"` branch
                      have hpos := ident_length_pos hident
                      have hge : 2 ≤ name.length := by omega
                      have hlen := suffix_length name
                      refine ⟨?_, ?_, ?_⟩
                      · -- not poor
                        unfold isPoorName
                        split
                        · rfl
                        · have hl1 : ¬ ((name ++ "_value").length = 1
                              ∧ (name ++ "_value") ∉ ["i", "j", "k", "x", "y", "z"]) := by
                            intro hc
                            omega
                          have hvoc : (name ++ "_value")
                              ∉ ["temp", "tmp", "var", "foo", "bar", "data"] := by
                            intro hc
                            have hlens : ∀ s ∈ ["temp", "tmp", "var", "foo", "bar", "data"],
                                String.length s ≤ 4 := by decide
                            have := hlens _ hc
                            omega
                          have hl2 : ¬ ((name ++ "_value").length ≤ 2
                              ∧ ¬ pyStartsWith (name ++ "_value") "_" = true) := by
                            intro hc
                            omega
                          rw [if_neg hl1, if_neg hvoc, if_neg hl2]
                      · -- still an identifier
                        have hand := (Bool.and_eq_true _ _).mp hident
                        refine (Bool.and_eq_true _ _).mpr ⟨?_, ?_⟩
                        · have hne : (name ++ "_value") ≠ "" := by
                            intro hc
                            have := congrArg String.length hc
                            rw [hlen] at this
                            simp at this
                          simp [hne]
                        · rw [String.data_append, List.all_append]
                          refine (Bool.and_eq_true _ _).mpr ⟨hand.2, by decide⟩
                      · -- not a keyword
                        intro hmem
                        have hund : '_' ∈ (name ++ "_value").data := by
                          rw [String.data_append]
                          refine List.mem_append_right _ ?_
                          decide
                        have hkw : ∀ k ∈ pyKeywords, '_' ∉ k.data := by decide
                        exact hkw _ hmem hund

/-- Substitution at run level: the runs of the substituted line are the
mapped runs of the original line. -/
theorem renameSubL_runs {old new : List Char}
    (hou : uniformRun old) (hof : runFlag old = true)
    (hnu : uniformRun new) (hnf : runFlag new = true) (s : List Char) :
    runsplit (renameSubL old new s)
      = (runsplit s).map (fun r => if r = old then new else r) := by
  unfold renameSubL
  apply runsplit_flatten_of_wf
  obtain ⟨huni, hchain⟩ := runsplit_wf s
  have hflag : ∀ r, runFlag (if r = old then new else r) = runFlag r := by
    intro r
    by_cases h : r = old
    · subst h
      rw [if_pos rfl, hnf, hof]
    · rw [if_neg h]
  constructor
  · intro x hx
    obtain ⟨r, hr, hfr⟩ := List.mem_map.mp hx
    by_cases h : r = old
    · rw [← hfr, if_pos h]
      exact hnu
    · rw [← hfr, if_neg h]
      exact huni r hr
  · rw [List.chain'_map]
    refine hchain.imp ?_
    intro a b hab
    rw [hflag a, hflag b]
    exact hab

/-- The per-run effect of the whole substitution chain (the inner
`for old_name, new_name in poor_names.items()` loop, seen on one run). -/
def chainSub (pairs : List (String × String)) (r : List Char) : List Char :=
  pairs.foldl (fun x p => if x = p.1.data then p.2.data else x) r

/-- The invariants carried by every entry of the rename plan. -/
def pairOk (q : String × String) : Prop :=
  isPoorName q.1 = true ∧ isPoorName q.2 = false
    ∧ isIdentB q.1 = true ∧ isIdentB q.2 = true

/-- The runs of a fully substituted line are the chain-mapped runs of
the original line. -/
theorem foldl_rename_runs :
    ∀ (pairs : List (String × String)), (∀ q ∈ pairs, pairOk q) →
      ∀ line : List Char,
      runsplit (pairs.foldl (fun l p => renameSubL p.1.data p.2.data l) line)
        = (runsplit line).map (chainSub pairs) := by
  intro pairs
  induction pairs with
  | nil =>
    intro _ line
    show runsplit line = (runsplit line).map (fun r => r)
    simp
  | cons p ps ih =>
    intro hp line
    have hpo := hp p (List.mem_cons_self _ _)
    have h1 := ident_run hpo.2.2.1
    have h2 := ident_run hpo.2.2.2
    show runsplit (ps.foldl _ (renameSubL p.1.data p.2.data line)) = _
    rw [ih (fun q hq => hp q (List.mem_cons_of_mem _ hq)) (renameSubL p.1.data p.2.data line)]
    rw [renameSubL_runs h1.1 h1.2 h2.1 h2.2]
    rw [List.map_map]
    rfl

/-- A chain whose replacement values all differ from `x` preserves
"different from `x`". -/
theorem chainSub_ne_of_ne {x : List Char} :
    ∀ (pairs : List (String × String)), (∀ q ∈ pairs, q.2.data ≠ x) →
      ∀ r, r ≠ x → chainSub pairs r ≠ x := by
  intro pairs
  induction pairs with
  | nil => intro _ r hr; exact hr
  | cons p ps ih =>
    intro hv r hr
    show chainSub ps (if r = p.1.data then p.2.data else r) ≠ x
    refine ih (fun q hq => hv q (List.mem_cons_of_mem _ hq)) _ ?_
    by_cases h : r = p.1.data
    · rw [if_pos h]
      exact hv p (List.mem_cons_self _ _)
    · rw [if_neg h]
      exact hr

/-- No renamed key survives the substitution chain: the chain never
outputs the data of any planned old name. -/
theorem chainSub_ne_key :
    ∀ (pairs : List (String × String)), (∀ q ∈ pairs, pairOk q) →
      ∀ old ∈ pairs.map Prod.fst, ∀ r, chainSub pairs r ≠ old.data := by
  intro pairs
  induction pairs with
  | nil => intro _ old hold; simp at hold
  | cons p ps ih =>
    intro hp old hold r
    have hpo := hp p (List.mem_cons_self _ _)
    rw [List.map_cons] at hold
    rcases List.mem_cons.mp hold with heq | hmem
    · -- old is the first key
      subst heq
      show chainSub ps (if r = p.1.data then p.2.data else r) ≠ p.1.data
      refine chainSub_ne_of_ne ps ?_ _ ?_
      · intro q hq
        have hq' := (hp q (List.mem_cons_of_mem _ hq)).2.1
        refine data_ne_of_ne ?_
        intro hc
        rw [hc, hpo.1] at hq'
        exact Bool.noConfusion hq' 
      · by_cases h : r = p.1.data
        · rw [if_pos h]
          refine data_ne_of_ne ?_
          intro hc
          have h2 := hpo.2.1
          rw [hc, hpo.1] at h2
          exact Bool.noConfusion h2
        · rw [if_neg h]
          exact h
    · exact ih (fun q hq => hp q (List.mem_cons_of_mem _ hq)) old hmem _

/-- The full invariant carried by plan entries. -/
def planEntryOk (q : String × String) : Prop :=
  pairOk q ∧ q.1 ∉ pyKeywords ∧ q.2 ∉ pyKeywords

/-- One target-collection step preserves the plan invariant. -/
theorem collectPoorTargets_inv (value : Expr) :
    ∀ (tgts : List Expr) (st : List (String × String) × List String),
      (∀ e ∈ tgts, targetOkE e = true) →
      (∀ q ∈ st.1, planEntryOk q) →
      ∀ q ∈ (collectPoorTargets value tgts st).1, planEntryOk q := by
  intro tgts
  induction tgts with
  | nil => intro st _ hst q hq; exact hst q hq
  | cons e ts ih =>
    intro st hok hst
    obtain ⟨dict, chs⟩ := st
    have hts : ∀ x ∈ ts, targetOkE x = true :=
      fun x hx => hok x (List.mem_cons_of_mem _ hx)
    cases e with
    | name id ctx ln sg =>
      have hokE : (isIdentB id && !(pyKeywords.contains id)) = true :=
        hok _ (List.mem_cons_self _ _)
      have hand := (Bool.and_eq_true _ _).mp hokE
      have hident : isIdentB id = true := hand.1
      have hnk : id ∉ pyKeywords := by
        intro hc
        have hcont : pyKeywords.contains id = true := List.elem_eq_true_of_mem hc
        rw [hcont] at hand
        exact Bool.noConfusion hand.2
      by_cases hp : isPoorName id = true
      · have hstep : collectPoorTargets value (Expr.name id ctx ln sg :: ts) (dict, chs)
            = collectPoorTargets value ts
                (upsert id (suggestBetterName id value) dict,
                 chs ++ [renameMsg id (suggestBetterName id value)]) := by
          simp [collectPoorTargets, hp]
        rw [hstep]
        refine ih _ hts ?_
        intro q hq
        rcases mem_upsert hq with hq' | hq'
        · subst hq'
          have hs := @suggest_props id value hident
          exact ⟨⟨hp, hs.1, hident, hs.2.1⟩, hnk, hs.2.2⟩
        · exact hst q hq'
      · have hp' : isPoorName id = false := by
          cases h : isPoorName id
          · rfl
          · exact absurd h hp
        have hstep : collectPoorTargets value (Expr.name id ctx ln sg :: ts) (dict, chs)
            = collectPoorTargets value ts (dict, chs) := by
          simp [collectPoorTargets, hp']
        rw [hstep]
        exact ih _ hts hst
    | «attribute» v a c l s2 => exact ih _ hts hst
    | constant c l s2 => exact ih _ hts hst
    | boolOp vs l s2 => exact ih _ hts hst
    | binOp a b l s2 => exact ih _ hts hst
    | call f args l s2 => exact ih _ hts hst
    | listLit es l s2 => exact ih _ hts hst
    | dictLit l s2 => exact ih _ hts hst

/-- The head step of `collectPoorL`, written as an explicit match. -/
theorem collectPoorL_cons (n : Node) (rest : List Node)
    (st : List (String × String) × List String) :
    collectPoorL (n :: rest) st
      = collectPoorL rest
          (match n with
           | .stmt (.assign tgts v _ _) => collectPoorTargets v tgts st
           | _ => st) := by
  cases n with
  | mod b => rfl
  | expr e => rfl
  | stmt s =>
    cases s with
    | importStmt a b => rfl
    | importFrom a b c => rfl
    | assign a b c d => rfl
    | augAssign a b c d => rfl
    | exprStmt a b c => rfl
    | forStmt a b c d e => rfl
    | whileStmt a b c d => rfl
    | ifStmt a b c d => rfl
    | functionDef a b c d e f => rfl
    | classDef a b c => rfl
    | globalStmt a b => rfl
    | returnStmt a b => rfl
    | passStmt a => rfl

/-- Every entry of the rename plan built over a well-formed walk
satisfies the plan invariant. -/
theorem collectPoorL_inv :
    ∀ (l : List Node) (st : List (String × String) × List String),
      (∀ n ∈ l, targetNamesOk n = true) →
      (∀ q ∈ st.1, planEntryOk q) →
      ∀ q ∈ (collectPoorL l st).1, planEntryOk q := by
  intro l
  induction l with
  | nil => intro st _ hst q hq; exact hst q hq
  | cons n rest ih =>
    intro st hwf hst
    have hrest : ∀ x ∈ rest, targetNamesOk x = true :=
      fun x hx => hwf x (List.mem_cons_of_mem _ hx)
    rw [collectPoorL_cons]
    refine ih _ hrest ?_
    match n with
    | .stmt (.assign tgts v ln sg) =>
      refine collectPoorTargets_inv v tgts st ?_ hst
      have := hwf _ (List.mem_cons_self _ _)
      exact List.all_eq_true.mp this
    | .stmt (.importStmt a b) => exact hst
    | .stmt (.importFrom a b c) => exact hst
    | .stmt (.augAssign a b c d) => exact hst
    | .stmt (.exprStmt a b c) => exact hst
    | .stmt (.forStmt a b c d e) => exact hst
    | .stmt (.whileStmt a b c d) => exact hst
    | .stmt (.ifStmt a b c d) => exact hst
    | .stmt (.functionDef a b c d e f) => exact hst
    | .stmt (.classDef a b c) => exact hst
    | .stmt (.globalStmt a b) => exact hst
    | .stmt (.returnStmt a b) => exact hst
    | .stmt (.passStmt a) => exact hst
    | .mod b => exact hst
    | .expr e => exact hst

/- ### C5: line structure of the substituted text -/

/-- Splitting a separator-free chunk yields the single piece. -/
theorem splitGo_no_sep {sep : Char} :
    ∀ (a acc : List Char), (∀ c ∈ a, c ≠ sep) →
      pySplitCharGo sep a acc = [String.mk (acc.reverse ++ a)] := by
  intro a
  induction a with
  | nil => intro acc _; simp [pySplitCharGo]
  | cons c a' ih =>
    intro acc hns
    have hc : c ≠ sep := hns c (List.mem_cons_self _ _)
    have hif : (c = sep) = False := by simp [hc]
    show (if c = sep then _ else pySplitCharGo sep a' (c :: acc)) = _
    rw [if_neg hc]
    rw [ih (c :: acc) (fun x hx => hns x (List.mem_cons_of_mem _ hx))]
    simp

/-- Splitting a chunk followed by a separator emits the chunk. -/
theorem splitGo_append {sep : Char} :
    ∀ (a b acc : List Char), (∀ c ∈ a, c ≠ sep) →
      pySplitCharGo sep (a ++ sep :: b) acc
        = String.mk (acc.reverse ++ a) :: pySplitCharGo sep b [] := by
  intro a
  induction a with
  | nil =>
    intro b acc _
    show (if sep = sep then _ else _) = _
    rw [if_pos rfl]
    simp
  | cons c a' ih =>
    intro b acc hns
    have hc : c ≠ sep := hns c (List.mem_cons_self _ _)
    show (if c = sep then _ else pySplitCharGo sep (a' ++ sep :: b) (c :: acc)) = _
    rw [if_neg hc]
    rw [ih b (c :: acc) (fun x hx => hns x (List.mem_cons_of_mem _ hx))]
    simp

/-- Splitting the joined lines recovers the lines (when no line
contains the separator). -/
theorem splitNl_pyJoin :
    ∀ ls : List String, ls ≠ [] → (∀ l ∈ ls, ∀ c ∈ l.data, c ≠ '\n') →
      pySplitNl (pyJoin "\n" ls) = ls := by
  intro ls
  induction ls with
  | nil => intro h _; exact absurd rfl h
  | cons l rest ih =>
    intro _ hns
    cases rest with
    | nil =>
      show pySplitCharGo '\n' (String.mk l.data).data [] = [l]
      have : (String.mk l.data).data = l.data := rfl
      rw [this, splitGo_no_sep l.data [] (hns l (List.mem_cons_self _ _))]
      simp
    | cons y rest' =>
      have hjoin : (pyJoin "\n" (l :: y :: rest')).data
          = l.data ++ '\n' :: (pyJoin "\n" (y :: rest')).data := by
        show pyJoinGo ['\n'] (l.data :: (y :: rest').map String.data)
            = l.data ++ '\n' :: pyJoinGo ['\n'] ((y :: rest').map String.data)
        show l.data ++ ['\n'] ++ pyJoinGo ['\n'] ((y :: rest').map String.data) = _
        simp
      show pySplitCharGo '\n' (pyJoin "\n" (l :: y :: rest')).data [] = l :: y :: rest'
      rw [hjoin, splitGo_append l.data _ [] (hns l (List.mem_cons_self _ _))]
      have hrec := ih (by simp) (fun x hx c hc => hns x (List.mem_cons_of_mem _ hx) c hc)
      have : pySplitCharGo '\n' (pyJoin "\n" (y :: rest')).data [] = y :: rest' := hrec
      rw [this]
      simp

/-- Lines produced by the splitter never contain the separator. -/
theorem splitGo_mem_no_sep {sep : Char} :
    ∀ (a acc : List Char) (line : String),
      line ∈ pySplitCharGo sep a acc → (∀ c ∈ acc, c ≠ sep) →
      ∀ c ∈ line.data, c ≠ sep := by
  intro a
  induction a with
  | nil =>
    intro acc line hline hacc c hc
    simp only [pySplitCharGo, List.mem_singleton] at hline
    subst hline
    have : c ∈ acc.reverse := hc
    exact hacc c (List.mem_reverse.mp this)
  | cons d a' ih =>
    intro acc line hline hacc c hc
    by_cases hd : d = sep
    · rw [show pySplitCharGo sep (d :: a') acc
          = String.mk acc.reverse :: pySplitCharGo sep a' [] by
        show (if d = sep then _ else _) = _
        rw [if_pos hd]] at hline
      rcases List.mem_cons.mp hline with hline | hline
      · subst hline
        exact hacc c (List.mem_reverse.mp hc)
      · exact ih [] line hline (by simp) c hc
    · rw [show pySplitCharGo sep (d :: a') acc = pySplitCharGo sep a' (d :: acc) by
        show (if d = sep then _ else _) = _
        rw [if_neg hd]] at hline
      refine ih (d :: acc) line hline ?_ c hc
      intro x hx
      rcases List.mem_cons.mp hx with hx | hx
      · subst hx; exact hd
      · exact hacc x hx

/-- The splitter always returns at least one line. -/
theorem splitGo_ne_nil {sep : Char} :
    ∀ (a acc : List Char), pySplitCharGo sep a acc ≠ [] := by
  intro a
  induction a with
  | nil => intro acc; simp [pySplitCharGo]
  | cons c a' ih =>
    intro acc
    by_cases hc : c = sep
    · show (if c = sep then _ else _) ≠ []
      rw [if_pos hc]
      simp
    · show (if c = sep then _ else _) ≠ []
      rw [if_neg hc]
      exact ih (c :: acc)

/-- Characters of a substituted line come from the line or from the
replacement. -/
theorem renameSubL_chars {old new s : List Char} {c : Char}
    (hc : c ∈ renameSubL old new s) : c ∈ s ∨ c ∈ new := by
  unfold renameSubL at hc
  obtain ⟨r0, hr0, hcr⟩ := List.mem_flatten.mp hc
  obtain ⟨r1, hr1, hfr⟩ := List.mem_map.mp hr0
  by_cases h : r1 = old
  · rw [if_pos h] at hfr
    right
    rw [← hfr] at hcr
    exact hcr
  · rw [if_neg h] at hfr
    left
    rw [← hfr] at hcr
    have : c ∈ (runsplit s).flatten := List.mem_flatten.mpr ⟨r1, hr1, hcr⟩
    rw [runsplit_flatten] at this
    exact this

/-- Characters of a fully substituted line come from the line or from
some replacement value. -/
theorem foldl_rename_chars :
    ∀ (pairs : List (String × String)) (line : List Char) (c : Char),
      c ∈ pairs.foldl (fun l p => renameSubL p.1.data p.2.data l) line →
      c ∈ line ∨ ∃ q ∈ pairs, c ∈ q.2.data := by
  intro pairs
  induction pairs with
  | nil => intro line c hc; exact Or.inl hc
  | cons p ps ih =>
    intro line c hc
    rcases ih (renameSubL p.1.data p.2.data line) c hc with hc' | ⟨q, hq, hcq⟩
    · rcases renameSubL_chars hc' with hc'' | hc''
      · exact Or.inl hc''
      · exact Or.inr ⟨p, List.mem_cons_self _ _, hc''⟩
    · exact Or.inr ⟨q, List.mem_cons_of_mem _ hq, hcq⟩

/-- A well-formed identifier contains no newline. -/
theorem ident_no_newline {s : String} (h : isIdentB s = true) :
    ∀ c ∈ s.data, c ≠ '\n' := by
  intro c hc hceq
  have hand := (Bool.and_eq_true _ _).mp h
  have := List.all_eq_true.mp hand.2 c hc
  rw [hceq] at this
  exact absurd this (by decide)

/- ### C5 -/

/-- A word-boundary-delimited occurrence of the all-word-character
token `w` in the text `s`: a maximal word run equal to `w` on some line
(word runs never span the newline separator, and the renamer applies
its `\b`-substitutions line by line). -/
def occursAsToken (w s : String) : Prop :=
  ∃ line ∈ pySplitNl s, w.data ∈ runsplit line.data

/-- The textual effect of applying a rename plan (the substitution loop
of `rename_variables`): every line, through every pair. -/
def applyPlan (pairs : List (String × String)) (code : String) : String :=
  pyJoin "\n" ((pySplitNl code).map (renameSubLine pairs))

/-- A rename plan whose entries map non-keyword identifiers to
non-keyword identifiers: a Python parser accepts the result of applying
such a plan whenever it accepts the input. -/
def SanePairs (pairs : List (String × String)) : Prop :=
  ∀ q ∈ pairs, isIdentB q.1 = true ∧ isIdentB q.2 = true
    ∧ q.1 ∉ pyKeywords ∧ q.2 ∉ pyKeywords

/-- C5: after `rename_variables`, no planned (reported) poor name
occurs as a whole word-boundary-delimited token anywhere in the output
text; moreover the plan maps well-formed non-keyword identifiers to
well-formed non-keyword identifiers, the output is either the unchanged
input or the plan applied to it, and hence any parser (`P`) invariant
under sane whole-token renamings accepts the output whenever it accepts
the input — the embedding of "the replacement text still parses". -/
theorem rename_variables_token_elimination :
    ∀ (t : List Stmt) (code : String),
      (∀ n ∈ walk t, targetNamesOk n = true) →
      (∀ old ∈ ((collectPoorL (walk t) ([], [])).1).map Prod.fst,
          ¬ occursAsToken old (rename_variables code t).1)
      ∧ SanePairs (collectPoorL (walk t) ([], [])).1
      ∧ ((rename_variables code t).1 = code
          ∨ (rename_variables code t).1 = applyPlan (collectPoorL (walk t) ([], [])).1 code)
      ∧ (∀ P : String → Bool,
          (∀ (ps : List (String × String)) (s : String),
            SanePairs ps → P s = true → P (applyPlan ps s) = true) →
          P code = true → P ((rename_variables code t).1) = true) := by
  intro t code hwf
  have hplan : ∀ q ∈ (collectPoorL (walk t) ([], [])).1, planEntryOk q :=
    collectPoorL_inv (walk t) ([], []) hwf (by intro q hq; simp at hq)
  have hpairok : ∀ q ∈ (collectPoorL (walk t) ([], [])).1, pairOk q :=
    fun q hq => (hplan q hq).1
  have hsane : SanePairs (collectPoorL (walk t) ([], [])).1 := by
    intro q hq
    obtain ⟨⟨_, _, h1, h2⟩, h3, h4⟩ := hplan q hq
    exact ⟨h1, h2, h3, h4⟩
  by_cases hemp : (collectPoorL (walk t) ([], [])).1 = []
  · have hout : (rename_variables code t).1 = code := by
      unfold rename_variables
      rw [if_neg (by simpa using hemp)]
  -- plan empty: nothing was renamed, output is the input
    refine ⟨?_, hsane, Or.inl hout, ?_⟩
    · intro old hold
      rw [hemp] at hold
      simp at hold
    · intro P hP hp
      rw [hout]
      exact hp
  · have hout : (rename_variables code t).1
        = applyPlan (collectPoorL (walk t) ([], [])).1 code := by
      unfold rename_variables applyPlan
      rw [if_pos (by simpa using hemp)]
    refine ⟨?_, hsane, Or.inr hout, ?_⟩
    · -- token elimination
      intro old hold hocc
      rw [hout] at hocc
      obtain ⟨line, hline, htok⟩ := hocc
      have hsplit : pySplitNl (applyPlan (collectPoorL (walk t) ([], [])).1 code)
          = (pySplitNl code).map (renameSubLine (collectPoorL (walk t) ([], [])).1) := by
        refine splitNl_pyJoin _ ?_ ?_
        · intro hc
          have := @splitGo_ne_nil '\n' code.data []
          rw [List.map_eq_nil_iff] at hc
          exact this hc
        · intro l hl c hc hceq
          obtain ⟨line0, hline0, hfl⟩ := List.mem_map.mp hl
          rw [← hfl] at hc
          have hc' : c ∈ (collectPoorL (walk t) ([], [])).1.foldl
              (fun l p => renameSubL p.1.data p.2.data l) line0.data := hc
          rcases foldl_rename_chars _ line0.data c hc' with hc0 | ⟨q, hq, hcq⟩
          · have := splitGo_mem_no_sep code.data [] line0 hline0 (by simp) c hc0
            exact this hceq
          · have hid := (hpairok q hq).2.2.2
            exact ident_no_newline hid c hcq hceq
      rw [hsplit] at hline
      obtain ⟨line0, hline0, hfl⟩ := List.mem_map.mp hline
      rw [← hfl] at htok
      have hruns : runsplit (renameSubLine (collectPoorL (walk t) ([], [])).1 line0).data
          = (runsplit line0.data).map (chainSub (collectPoorL (walk t) ([], [])).1) := by
        show runsplit ((collectPoorL (walk t) ([], [])).1.foldl
            (fun l p => renameSubL p.1.data p.2.data l) line0.data) = _
        exact foldl_rename_runs _ hpairok line0.data
      rw [hruns] at htok
      obtain ⟨r, _, hr⟩ := List.mem_map.mp htok
      exact chainSub_ne_key _ hpairok old hold r hr
    · intro P hP hp
      rw [hout]
      exact hP _ code hsane hp

/-- The parse of `temp = 1` / `print(temp)`. -/
def renameDemoTree : List Stmt :=
  [Stmt.assign [Expr.name "temp" .store 1 none]
    (Expr.constant (.intVal 1) 1 (some "1")) 1 (some "temp = 1"),
   Stmt.exprStmt
    (Expr.call (Expr.name "print" .load 2 none) [Expr.name "temp" .load 2 none]
      2 (some "print(temp)"))
    2 (some "print(temp)")]

/-- Witness for C5: on the concrete program the reported poor name
`temp` no longer occurs as a token, and a trivially rename-invariant
parser accepts the output. -/
theorem rename_variables_token_elimination_witness :
    ¬ occursAsToken "temp"
        (rename_variables "temp = 1\nprint(temp)" renameDemoTree).1
    ∧ (fun _ => true : String → Bool)
        ((rename_variables "temp = 1\nprint(temp)" renameDemoTree).1) = true :=
  ⟨(rename_variables_token_elimination renameDemoTree "temp = 1\nprint(temp)"
      (by decide)).1 "temp" (by decide),
   (rename_variables_token_elimination renameDemoTree "temp = 1\nprint(temp)"
      (by decide)).2.2.2 (fun _ => true) (fun _ _ _ _ => rfl) rfl⟩
